import Mathlib

/-!
# Verification of ViLCo configuration and training-head code

Shallow embedding of `MQ/libs/core/config.py` (nested configuration
dictionaries, recursive merge, derived-field pass) and of
`VQ/func/train_head.py` (top-candidate selection, validation metrics,
gradient-accumulation schedule, metric aggregation), together with proofs
of the specified properties.

Python values are modelled by the inductive type `Val`; dictionaries are
association lists in insertion order, exactly as CPython dicts behave.
Python float literals occurring in the configuration are opaque data in
this code path (never computed with), and are modelled exactly as the
rational `numerator / denominator` pair of the literal.
Fallible Python operations (KeyError / TypeError) are modelled in
`Except String`.
-/

set_option maxRecDepth 6000

/-- A Python value, as used by the configuration code: ints, strings,
booleans, `None`, floats (opaque literals, stored as numerator/denominator),
lists, tuples, and string-keyed dicts in insertion order. -/
inductive Val where
  | int : Int → Val
  | str : String → Val
  | bool : Bool → Val
  | none : Val
  | float : Int → Nat → Val
  | list : List Val → Val
  | tuple : List Val → Val
  | dict : List (String × Val) → Val

/-- First-match lookup in an association list (CPython dict lookup). -/
def lookupL (d : List (String × Val)) (k : String) : Option Val :=
  match d with
  | [] => Option.none
  | (k', v') :: rest => if k' = k then some v' else lookupL rest k

/-- CPython dict `d[k] = v`: replace the value at the first occurrence of
`k`, keeping its position, or append `(k, v)` at the end. -/
def setL (d : List (String × Val)) (k : String) (v : Val) : List (String × Val) :=
  match d with
  | [] => [(k, v)]
  | (k', v') :: rest => if k' = k then (k, v) :: rest else (k', v') :: setL rest k v

/-- Key membership in an association list. -/
def containsL (d : List (String × Val)) (k : String) : Bool :=
  match d with
  | [] => false
  | (k', _) :: rest => if k' = k then true else containsL rest k

/-- Python `pat in s` on strings: substring test. -/
def strContains (s pat : String) : Bool :=
  let sl := s.toList
  let pl := pat.toList
  (List.range (sl.length + 1)).any (fun i => pl = ((sl.drop i).take pl.length))

/-- Python `x == k` where `k` is a `str`: true only for an equal string
(values of other types never compare equal to a string). -/
def isStrEq (v : Val) (k : String) : Bool :=
  match v with
  | .str s => s = k
  | _ => false

/-- Python `k in v` for a string key `k`: dict key membership, substring
test on strings, element membership on lists/tuples; `TypeError` on
non-container values. -/
def containsVal (v : Val) (k : String) : Except String Bool :=
  match v with
  | .dict d => .ok (containsL d k)
  | .str s => .ok (strContains s k)
  | .list xs => .ok (xs.any (fun x => isStrEq x k))
  | .tuple xs => .ok (xs.any (fun x => isStrEq x k))
  | _ => .error "TypeError: argument is not iterable"

/-- Python `v[k]` for a string key `k`: dict lookup (`KeyError` when the
key is missing); `TypeError` on every other type. -/
def getItemVal (v : Val) (k : String) : Except String Val :=
  match v with
  | .dict d =>
    match lookupL d k with
    | some x => .ok x
    | Option.none => .error "KeyError"
  | _ => .error "TypeError: value is not subscriptable by str"

/-- Python `v[k] = x` for a string key `k`: dict update/insert;
`TypeError` on every other type (str/tuple are immutable, list item
assignment needs an int index). -/
def setItemVal (v : Val) (k : String) (x : Val) : Except String Val :=
  match v with
  | .dict d => .ok (.dict (setL d k x))
  | _ => .error "TypeError: value does not support item assignment by str"

/-- `_merge(src, dst)` from `MQ/libs/core/config.py`:

    for k, v in src.items():
        if k in dst:
            if isinstance(v, dict):
                _merge(src[k], dst[k])
        else:
            dst[k] = v

`src` is always a dict at every call (guarded by `isinstance`); this pure
rendering threads the updated `dst` value through the iteration, which
coincides with the in-place result for alias-free (tree-shaped) inputs.
The heap model `mergeH` below captures the in-place/sharing behaviour. -/
def mergeD : List (String × Val) → Val → Except String Val
  | [], dst => .ok dst
  | (k, v) :: rest, dst =>
    match containsVal dst k with
    | .error e => .error e
    | .ok true =>
      match v with
      | .dict sv =>
        match getItemVal dst k with
        | .error e => .error e
        | .ok x =>
          match mergeD sv x with
          | .error e => .error e
          | .ok m =>
            match setItemVal dst k m with
            | .error e => .error e
            | .ok dst' => mergeD rest dst'
      | _ => mergeD rest dst
    | .ok false =>
      match setItemVal dst k v with
      | .error e => .error e
      | .ok dst' => mergeD rest dst'

/-- One derived-field assignment of `_update_config`:
`config["model"][key] = v` (evaluated after the right-hand side). -/
def setModelField (c : Val) (key : String) (v : Val) : Except String Val :=
  match getItemVal c "model" with
  | .error e => .error e
  | .ok m =>
    match setItemVal m key v with
    | .error e => .error e
    | .ok m' => setItemVal c "model" m'

/-- `_update_config(config)` from `MQ/libs/core/config.py`: copies
`dataset.input_dim / num_classes / max_seq_len` and the `train_cfg`,
`test_cfg`, `cl_cfg` sections into the `model` sub-dict, in source order. -/
def update_config (c : Val) : Except String Val :=
  match getItemVal c "dataset" with
  | .error e => .error e
  | .ok ds =>
  match getItemVal ds "input_dim" with
  | .error e => .error e
  | .ok v1 =>
  match setModelField c "input_dim" v1 with
  | .error e => .error e
  | .ok c1 =>
  match getItemVal c1 "dataset" with
  | .error e => .error e
  | .ok ds2 =>
  match getItemVal ds2 "num_classes" with
  | .error e => .error e
  | .ok v2 =>
  match setModelField c1 "num_classes" v2 with
  | .error e => .error e
  | .ok c2 =>
  match getItemVal c2 "dataset" with
  | .error e => .error e
  | .ok ds3 =>
  match getItemVal ds3 "max_seq_len" with
  | .error e => .error e
  | .ok v3 =>
  match setModelField c2 "max_seq_len" v3 with
  | .error e => .error e
  | .ok c3 =>
  match getItemVal c3 "train_cfg" with
  | .error e => .error e
  | .ok v4 =>
  match setModelField c3 "train_cfg" v4 with
  | .error e => .error e
  | .ok c4 =>
  match getItemVal c4 "test_cfg" with
  | .error e => .error e
  | .ok v5 =>
  match setModelField c4 "test_cfg" v5 with
  | .error e => .error e
  | .ok c5 =>
  match getItemVal c5 "cl_cfg" with
  | .error e => .error e
  | .ok v6 =>
  match setModelField c5 "cl_cfg" v6 with
  | .error e => .error e
  | .ok c6 => .ok c6

/-- `load_config(config_file, defaults)` from `MQ/libs/core/config.py`,
after the external YAML parse: `cfg` is the parsed override tree;
`_merge(defaults, cfg)` runs first, then `_update_config`. -/
def load_config (defaults : List (String × Val)) (cfg : Val) : Except String Val :=
  match mergeD defaults cfg with
  | .error e => .error e
  | .ok c => update_config c

/-- The `DEFAULTS` tree of `MQ/libs/core/config.py`, transcribed key for
key in source order. Float literals are `Val.float numerator denominator`. -/
def DEFAULTS : List (String × Val) :=
  [ ("init_rand_seed", .int 765421321),
    ("dataset_name", .str "epic"),
    ("devices", .list [.str "cuda:0"]),
    ("train_split", .tuple [.str "training"]),
    ("val_split", .tuple [.str "validation"]),
    ("model_name", .str "LocPointTransformer"),
    ("dataset", .dict
      [ ("feat_stride", .int 16),
        ("num_frames", .int 32),
        ("default_fps", .none),
        ("input_dim", .int 2304),
        ("num_classes", .int 97),
        ("downsample_rate", .int 1),
        ("max_seq_len", .int 2304),
        ("trunc_thresh", .float 5 10),
        ("crop_ratio", .none),
        ("force_upsampling", .bool false),
        ("use_narration", .bool false),
        ("narration_feat_folder", .none),
        ("use_text", .bool false),
        ("text_feat_folder", .none),
        ("max_text_len", .int 128),
        ("output_format", .str "concat") ]),
    ("loader", .dict
      [ ("batch_size", .int 8),
        ("num_workers", .int 2) ]),
    ("model", .dict
      [ ("use_xl", .bool true),
        ("backbone_type", .str "convTransformer"),
        ("fpn_type", .str "identity"),
        ("backbone_arch", .tuple [.int 2, .int 2, .int 5]),
        ("scale_factor", .int 2),
        ("regression_range", .list
          [ .tuple [.int 0, .int 4], .tuple [.int 4, .int 8],
            .tuple [.int 8, .int 16], .tuple [.int 16, .int 32],
            .tuple [.int 32, .int 64], .tuple [.int 64, .int 10000] ]),
        ("n_head", .int 4),
        ("n_mha_win_size", .int (-1)),
        ("embd_kernel_size", .int 3),
        ("embd_dim", .int 512),
        ("embd_with_ln", .bool true),
        ("fpn_dim", .int 512),
        ("fpn_with_ln", .bool true),
        ("fpn_start_level", .int 0),
        ("head_dim", .int 512),
        ("head_kernel_size", .int 3),
        ("head_num_layers", .int 3),
        ("head_with_ln", .bool true),
        ("max_buffer_len_factor", .float 60 10),
        ("use_abs_pe", .bool false),
        ("use_rel_pe", .bool false),
        ("use_cross_modal", .bool false),
        ("n_txt_in", .int 768) ]),
    ("train_cfg", .dict
      [ ("center_sample", .str "radius"),
        ("center_sample_radius", .float 15 10),
        ("loss_weight", .float 10 10),
        ("cls_prior_prob", .float 1 100),
        ("init_loss_norm", .int 2000),
        ("clip_grad_l2norm", .int (-1)),
        ("head_empty_cls", .list []),
        ("dropout", .float 0 10),
        ("droppath", .float 1 10),
        ("label_smoothing", .float 0 10),
        ("t_c_alpha", .float 8 10),
        ("use_dcn", .bool false),
        ("dcn_start_layer", .int (-1)),
        ("use_us_fpn", .bool false),
        ("al_loss_weight", .float 0 10),
        ("cont_loss_weight", .float 0 10),
        ("seg_loss_weight", .float 0 10),
        ("imp_loss_weight", .float 0 10),
        ("temperature", .float 7 100),
        ("queue_size", .int 256),
        ("length_theta", .float 2 10),
        ("use_trident_head", .bool false),
        ("num_bins", .int 16),
        ("iou_weight_power", .float 10 10) ]),
    ("test_cfg", .dict
      [ ("pre_nms_thresh", .float 1 1000),
        ("pre_nms_topk", .int 5000),
        ("iou_threshold", .float 1 10),
        ("min_score", .float 1 100),
        ("max_seg_num", .int 1000),
        ("nms_method", .str "soft"),
        ("nms_sigma", .float 5 10),
        ("duration_thresh", .float 5 100),
        ("multiclass_nms", .bool true),
        ("ext_score_file", .none),
        ("voting_thresh", .float 75 100) ]),
    ("cl_cfg", .dict
      [ ("name", .none),
        ("memory_size", .int 0),
        ("pkl_file", .str "./data/ego4d/ego4d_mq_query_incremental_22_all.pkl"),
        ("random_order", .bool false),
        ("reg_lambda", .int 0),
        ("type_sampling", .str "icarl"),
        ("path_memory", .str "path_memory.pkl"),
        ("adv_lambda", .int 0),
        ("prompt_pool", .bool false),
        ("pool_size", .int 0),
        ("topk", .int 4),
        ("length", .int 20),
        ("embed_dim", .int 768),
        ("narration_ssl", .bool false),
        ("narration_dim", .int 512),
        ("ssl_factor", .float 1 100),
        ("use_adapt", .bool false),
        ("adapt_blocks", .list []) ]),
    ("opt", .dict
      [ ("type", .str "AdamW"),
        ("momentum", .float 9 10),
        ("weight_decay", .float 0 10),
        ("learning_rate", .float 1 1000),
        ("epochs", .int 30),
        ("warmup", .bool true),
        ("warmup_epochs", .int 5),
        ("schedule_type", .str "cosine"),
        ("schedule_steps", .list []),
        ("schedule_gamma", .float 1 10) ]) ]

/-- `load_default_config()` returns the module-global `DEFAULTS` dict
itself (no copy); the value-level rendering. -/
def load_default_config : Val := .dict DEFAULTS

/-! ## Basic lemmas about the dict operations -/

/-- `isinstance(v, dict)`. -/
def isDictV : Val → Bool
  | .dict _ => true
  | _ => false

theorem lookupL_setL_self (d : List (String × Val)) (k : String) (v : Val) :
    lookupL (setL d k v) k = some v := by
  induction d with
  | nil => simp [setL, lookupL]
  | cons p rest ih =>
    obtain ⟨k', v'⟩ := p
    by_cases h : k' = k <;> simp [setL, lookupL, h, ih]

theorem lookupL_setL_other (d : List (String × Val)) (k k₂ : String) (v : Val)
    (hne : k₂ ≠ k) : lookupL (setL d k v) k₂ = lookupL d k₂ := by
  have hkk : ¬ k = k₂ := fun h => hne h.symm
  induction d with
  | nil => simp [setL, lookupL, hkk]
  | cons p rest ih =>
    obtain ⟨k', v'⟩ := p
    by_cases h : k' = k
    · subst h
      simp [setL, lookupL, hkk]
    · by_cases h2 : k' = k₂ <;> simp [setL, lookupL, h, h2, hne, ih]

theorem containsL_isSome (d : List (String × Val)) (k : String) :
    containsL d k = (lookupL d k).isSome := by
  induction d with
  | nil => simp [containsL, lookupL]
  | cons p rest ih =>
    obtain ⟨k', v'⟩ := p
    by_cases h : k' = k <;> simp [containsL, lookupL, h, ih]

theorem getItemVal_nonDict (v : Val) (k : String) (h : isDictV v = false) :
    getItemVal v k = .error "TypeError: value is not subscriptable by str" := by
  cases v <;> simp_all [isDictV, getItemVal]

theorem setItemVal_nonDict (v : Val) (k : String) (x : Val) (h : isDictV v = false) :
    setItemVal v k x = .error "TypeError: value does not support item assignment by str" := by
  cases v <;> simp_all [isDictV, setItemVal]

/-- Step reduction of `_merge`: `k in dst` raises. -/
theorem mergeD_cons_error (k : String) (v : Val) (rest : List (String × Val))
    (dst : Val) (e : String) (hc : containsVal dst k = .error e) :
    mergeD ((k, v) :: rest) dst = .error e := by
  cases v <;> rw [mergeD] <;> simp [hc]

/-- Step reduction of `_merge`: key absent, item assignment succeeds. -/
theorem mergeD_cons_false_ok (k : String) (v : Val) (rest : List (String × Val))
    (dst dst' : Val) (hc : containsVal dst k = .ok false)
    (hs : setItemVal dst k v = .ok dst') :
    mergeD ((k, v) :: rest) dst = mergeD rest dst' := by
  cases v <;> rw [mergeD] <;> simp [hc, hs]

/-- Step reduction of `_merge`: key absent, item assignment raises. -/
theorem mergeD_cons_false_err (k : String) (v : Val) (rest : List (String × Val))
    (dst : Val) (e : String) (hc : containsVal dst k = .ok false)
    (hs : setItemVal dst k v = .error e) :
    mergeD ((k, v) :: rest) dst = .error e := by
  cases v <;> rw [mergeD] <;> simp [hc, hs]

/-- Step reduction of `_merge`: key present, default value not a dict:
the iteration is a no-op. -/
theorem mergeD_cons_true_nonDict (k : String) (v : Val) (rest : List (String × Val))
    (dst : Val) (hv : isDictV v = false) (hc : containsVal dst k = .ok true) :
    mergeD ((k, v) :: rest) dst = mergeD rest dst := by
  cases v <;> first
    | ((rw [mergeD] <;> simp [hc]); done)
    | simp [isDictV] at hv

/-- Step reduction of `_merge`: key present, dict-valued default, and the
destination item access raises. -/
theorem mergeD_cons_dict_gerr (k : String) (sv : List (String × Val))
    (rest : List (String × Val)) (dst : Val) (e : String)
    (hc : containsVal dst k = .ok true) (hg : getItemVal dst k = .error e) :
    mergeD ((k, .dict sv) :: rest) dst = .error e := by
  rw [mergeD]; simp [hc, hg]

/-- Step reduction of `_merge`: key present, dict-valued default, recursive
merge succeeds and the result is stored back. -/
theorem mergeD_cons_dict_step (k : String) (sv : List (String × Val))
    (rest : List (String × Val)) (dst x m dst' : Val)
    (hc : containsVal dst k = .ok true) (hg : getItemVal dst k = .ok x)
    (hm : mergeD sv x = .ok m) (hs : setItemVal dst k m = .ok dst') :
    mergeD ((k, .dict sv) :: rest) dst = mergeD rest dst' := by
  rw [mergeD]; simp [hc, hg, hm, hs]

/-- Step reduction of `_merge`: key present, dict-valued default, recursive
merge raises. -/
theorem mergeD_cons_dict_merr (k : String) (sv : List (String × Val))
    (rest : List (String × Val)) (dst x : Val) (e : String)
    (hc : containsVal dst k = .ok true) (hg : getItemVal dst k = .ok x)
    (hm : mergeD sv x = .error e) :
    mergeD ((k, .dict sv) :: rest) dst = .error e := by
  rw [mergeD]; simp [hc, hg, hm]

/-- A non-dict destination that `_merge` completes on is returned unchanged:
every override scalar, string, list or tuple survives the merge wholesale. -/
theorem mergeD_nonDict (src : List (String × Val)) (ov : Val) (m : Val)
    (hov : isDictV ov = false) (h : mergeD src ov = .ok m) : m = ov := by
  induction src with
  | nil =>
    simp [mergeD] at h
    exact h.symm
  | cons p rest ih =>
    obtain ⟨k, v⟩ := p
    cases hc : containsVal ov k with
    | error e =>
      rw [mergeD_cons_error k v rest ov e hc] at h
      simp at h
    | ok b =>
      cases b with
      | false =>
        rw [mergeD_cons_false_err k v rest ov _ hc
          (setItemVal_nonDict ov k v hov)] at h
        simp at h
      | true =>
        by_cases hdv : isDictV v = true
        · obtain ⟨sv, rfl⟩ : ∃ sv, v = .dict sv := by
            cases v <;> simp_all [isDictV]
          rw [mergeD_cons_dict_gerr k sv rest ov _ hc
            (getItemVal_nonDict ov k hov)] at h
          simp at h
        · rw [mergeD_cons_true_nonDict k v rest ov (by simpa using hdv) hc] at h
          exact ih h

/-- Keys of an association list are pairwise distinct (always true of a
dict that came from CPython, which cannot hold duplicate keys). -/
def nodupKeys : List (String × Val) → Bool
  | [] => true
  | (k, _) :: rest => !(containsL rest k) && nodupKeys rest

/-- Reduction of one `_merge` iteration when the key is absent from the
destination dict: the default value is appended. -/
theorem mergeD_cons_absent (k : String) (v : Val) (rest d : List (String × Val))
    (hc : containsL d k = false) :
    mergeD ((k, v) :: rest) (.dict d) = mergeD rest (.dict (setL d k v)) :=
  mergeD_cons_false_ok k v rest (.dict d) (.dict (setL d k v))
    (by simp [containsVal, hc]) rfl

/-- Reduction of one `_merge` iteration when the key is present in the
destination but the default value is not a dict: the iteration is a no-op. -/
theorem mergeD_cons_skip (k : String) (v : Val) (rest d : List (String × Val))
    (hv : isDictV v = false) (hc : containsL d k = true) :
    mergeD ((k, v) :: rest) (.dict d) = mergeD rest (.dict d) :=
  mergeD_cons_true_nonDict k v rest (.dict d) hv (by simp [containsVal, hc])

/-- Reduction of one `_merge` iteration on a shared key with dict-valued
default, when the recursive merge completes. -/
theorem mergeD_cons_dict_ok (k : String) (sv rest d : List (String × Val))
    (dv m : Val) (hc : containsL d k = true) (hdv : lookupL d k = some dv)
    (hm : mergeD sv dv = .ok m) :
    mergeD ((k, .dict sv) :: rest) (.dict d) = mergeD rest (.dict (setL d k m)) :=
  mergeD_cons_dict_step k sv rest (.dict d) dv m (.dict (setL d k m))
    (by simp [containsVal, hc]) (by simp [getItemVal, hdv]) hm rfl

/-- Reduction of one `_merge` iteration on a shared key with dict-valued
default, when the recursive merge fails. -/
theorem mergeD_cons_dict_err (k : String) (sv rest d : List (String × Val))
    (dv : Val) (e : String) (hc : containsL d k = true)
    (hdv : lookupL d k = some dv) (hm : mergeD sv dv = .error e) :
    mergeD ((k, .dict sv) :: rest) (.dict d) = .error e :=
  mergeD_cons_dict_merr k sv rest (.dict d) dv e
    (by simp [containsVal, hc]) (by simp [getItemVal, hdv]) hm

/-- Per-key characterization of a completed `_merge` on a dict destination
(`src` = defaults, `d` = override): shared keys with a dict-valued default
are merged recursively, keys only in the override (or whose default value
is not a dict) keep the override value, and keys missing from the override
are inherited from the defaults. -/
theorem mergeD_lookup (src : List (String × Val)) :
    ∀ (d : List (String × Val)) (r : Val),
    nodupKeys src = true → mergeD src (.dict d) = .ok r →
    ∃ rl, r = .dict rl ∧ ∀ k : String,
      (lookupL src k = Option.none → lookupL rl k = lookupL d k) ∧
      (∀ v, lookupL src k = some v → lookupL d k = Option.none →
        lookupL rl k = some v) ∧
      (∀ sv, lookupL src k = some (.dict sv) → ∀ dv, lookupL d k = some dv →
        ∃ m, mergeD sv dv = .ok m ∧ lookupL rl k = some m) ∧
      (∀ v, lookupL src k = some v → isDictV v = false →
        ∀ dv, lookupL d k = some dv → lookupL rl k = some dv) := by
  induction src with
  | nil =>
    intro d r _ h
    refine ⟨d, ?_, ?_⟩
    · simpa [mergeD] using h.symm
    · intro k
      refine ⟨fun _ => rfl, ?_, ?_, ?_⟩ <;> simp [lookupL]
  | cons p rest ih =>
    obtain ⟨k₀, v₀⟩ := p
    intro d r hnd h
    have hnd' : containsL rest k₀ = false ∧ nodupKeys rest = true := by
      simpa [nodupKeys, Bool.and_eq_true] using hnd
    have hnd₀ := hnd'.1
    have hndr := hnd'.2
    have hrest₀ : lookupL rest k₀ = Option.none := by
      have := containsL_isSome rest k₀
      rw [hnd₀] at this
      cases hx : lookupL rest k₀ <;> simp [hx] at this ⊢
    cases hc : containsL d k₀ with
    | false =>
      rw [mergeD_cons_absent k₀ v₀ rest d hc] at h
      obtain ⟨rl, hr, hcl⟩ := ih (setL d k₀ v₀) r hndr h
      have hdnone : lookupL d k₀ = Option.none := by
        have := containsL_isSome d k₀
        rw [hc] at this
        cases hx : lookupL d k₀ <;> simp [hx] at this ⊢
      refine ⟨rl, hr, fun k => ?_⟩
      by_cases hk : k = k₀
      · subst hk
        have h1 := (hcl k).1 hrest₀
        rw [lookupL_setL_self] at h1
        refine ⟨?_, ?_, ?_, ?_⟩
        · intro hsk; simp [lookupL] at hsk
        · intro v hsk _
          simp [lookupL] at hsk
          subst hsk; exact h1
        · intro sv hsk dv hdv; rw [hdnone] at hdv; exact absurd hdv (by simp)
        · intro v hsk _ dv hdv; rw [hdnone] at hdv; exact absurd hdv (by simp)
      · have hk' : ¬ k₀ = k := fun hh => hk hh.symm
        have hlk : lookupL ((k₀, v₀) :: rest) k = lookupL rest k := by
          simp [lookupL, hk']
        have hsetk : lookupL (setL d k₀ v₀) k = lookupL d k :=
          lookupL_setL_other d k₀ k v₀ hk
        obtain ⟨c1, c2, c3, c4⟩ := hcl k
        rw [hsetk] at c1 c2 c3 c4
        exact ⟨fun hn => c1 (hlk ▸ hn), fun v hv => c2 v (hlk ▸ hv),
          fun sv hv => c3 sv (hlk ▸ hv), fun v hv => c4 v (hlk ▸ hv)⟩
    | true =>
      have hdsome : ∃ dv, lookupL d k₀ = some dv := by
        have := containsL_isSome d k₀
        rw [hc] at this
        cases hx : lookupL d k₀ <;> simp [hx] at this ⊢
      obtain ⟨dv, hdv⟩ := hdsome
      have tail : ∀ v₁ : Val, isDictV v₁ = false → mergeD rest (.dict d) = .ok r →
          ∃ rl, r = .dict rl ∧ ∀ k : String,
            (lookupL ((k₀, v₁) :: rest) k = Option.none → lookupL rl k = lookupL d k) ∧
            (∀ v, lookupL ((k₀, v₁) :: rest) k = some v → lookupL d k = Option.none →
              lookupL rl k = some v) ∧
            (∀ sv, lookupL ((k₀, v₁) :: rest) k = some (.dict sv) →
              ∀ dv₂, lookupL d k = some dv₂ →
              ∃ m, mergeD sv dv₂ = .ok m ∧ lookupL rl k = some m) ∧
            (∀ v, lookupL ((k₀, v₁) :: rest) k = some v → isDictV v = false →
              ∀ dv₂, lookupL d k = some dv₂ → lookupL rl k = some dv₂) := by
        intro v₁ hvd htl
        obtain ⟨rl, hr, hcl⟩ := ih d r hndr htl
        refine ⟨rl, hr, fun k => ?_⟩
        by_cases hk : k = k₀
        · subst hk
          have h1 := (hcl k).1 hrest₀
          refine ⟨?_, ?_, ?_, ?_⟩
          · intro hsk; simp [lookupL] at hsk
          · intro v hsk hdn; rw [hdv] at hdn; exact absurd hdn (by simp)
          · intro sv hsk dv₂ hdv₂
            simp [lookupL] at hsk
            subst hsk
            simp [isDictV] at hvd
          · intro v hsk _ dv₂ hdv₂
            rw [h1, hdv₂]
        · have hk' : ¬ k₀ = k := fun hh => hk hh.symm
          have hlk : lookupL ((k₀, v₁) :: rest) k = lookupL rest k := by
            simp [lookupL, hk']
          obtain ⟨c1, c2, c3, c4⟩ := hcl k
          exact ⟨fun hn => c1 (hlk ▸ hn), fun v hv => c2 v (hlk ▸ hv),
            fun sv hv => c3 sv (hlk ▸ hv), fun v hv => c4 v (hlk ▸ hv)⟩
      by_cases hdict : isDictV v₀ = true
      case neg =>
        rw [mergeD_cons_skip k₀ v₀ rest d (by simpa using hdict) hc] at h
        exact tail v₀ (by simpa using hdict) h
      case pos =>
        obtain ⟨sv, rfl⟩ : ∃ sv, v₀ = .dict sv := by
          cases v₀ <;> simp_all [isDictV]
        cases hm : mergeD sv dv with
        | error e =>
          rw [mergeD_cons_dict_err k₀ sv rest d dv e hc hdv hm] at h
          simp at h
        | ok m =>
          rw [mergeD_cons_dict_ok k₀ sv rest d dv m hc hdv hm] at h
          obtain ⟨rl, hr, hcl⟩ := ih (setL d k₀ m) r hndr h
          refine ⟨rl, hr, fun k => ?_⟩
          by_cases hk : k = k₀
          · subst hk
            have h1 := (hcl k).1 hrest₀
            rw [lookupL_setL_self] at h1
            refine ⟨?_, ?_, ?_, ?_⟩
            · intro hsk; simp [lookupL] at hsk
            · intro v hsk hdn; rw [hdv] at hdn; exact absurd hdn (by simp)
            · intro sv' hsk dv' hdv'
              simp [lookupL] at hsk
              rw [hdv] at hdv'
              cases hsk; cases hdv'
              exact ⟨m, hm, h1⟩
            · intro v hsk hvd dv' _
              simp [lookupL] at hsk
              subst hsk
              simp [isDictV] at hvd
          · have hk' : ¬ k₀ = k := fun hh => hk hh.symm
            have hlk : lookupL ((k₀, .dict sv) :: rest) k = lookupL rest k := by
              simp [lookupL, hk']
            have hsetk : lookupL (setL d k₀ m) k = lookupL d k :=
              lookupL_setL_other d k₀ k m hk
            obtain ⟨c1, c2, c3, c4⟩ := hcl k
            rw [hsetk] at c1 c2 c3 c4
            exact ⟨fun hn => c1 (hlk ▸ hn), fun v hv => c2 v (hlk ▸ hv),
              fun sv' hv => c3 sv' (hlk ▸ hv), fun v hv => c4 v (hlk ▸ hv)⟩
example : mergeD DEFAULTS (.dict []) = .ok (.dict DEFAULTS) := by rfl

/-- Extract the payload of a successful computation (with a default). -/
def okOr (e : Except String Val) (dflt : Val) : Val :=
  match e with
  | .ok v => v
  | .error _ => dflt

/-- C5: the recursive config merge satisfies, at every key of a dict
override: if defaults and override share the key and the default value is
a nested mapping, the result holds the recursive merge of the two values;
any override value that is a scalar or a list (not a mapping) survives
wholesale; and every key absent from the override is inherited from the
defaults (in particular a key in neither is in the result in neither).
Hypotheses: the defaults dict has no duplicate keys (true of every CPython
dict) and the merge completed without a `TypeError`. -/
theorem c5_merge_characterization (src d : List (String × Val)) (r : Val)
    (hnd : nodupKeys src = true) (h : mergeD src (.dict d) = .ok r) :
    ∃ rl, r = .dict rl ∧ ∀ k : String,
      (∀ sv dv, lookupL src k = some (.dict sv) → lookupL d k = some dv →
        ∃ m, mergeD sv dv = .ok m ∧ lookupL rl k = some m) ∧
      (∀ ov, lookupL d k = some ov → isDictV ov = false →
        lookupL rl k = some ov) ∧
      (lookupL d k = Option.none → lookupL rl k = lookupL src k) := by
  obtain ⟨rl, hr, hcl⟩ := mergeD_lookup src d r hnd h
  refine ⟨rl, hr, fun k => ?_⟩
  obtain ⟨c1, c2, c3, c4⟩ := hcl k
  refine ⟨fun sv dv hs hd => c3 sv hs dv hd, ?_, ?_⟩
  · intro ov hd hov
    cases hs : lookupL src k with
    | none => rw [c1 hs, hd]
    | some v =>
      by_cases hdict : isDictV v = true
      · obtain ⟨sv, rfl⟩ : ∃ sv, v = .dict sv := by
          cases v <;> simp_all [isDictV]
        obtain ⟨m, hm, hrlk⟩ := c3 sv hs ov hd
        rw [mergeD_nonDict sv ov m hov hm] at hrlk
        exact hrlk
      · exact c4 v hs (by simpa using hdict) ov hd
  · intro hd
    cases hs : lookupL src k with
    | none => rw [c1 hs, hd]
    | some v => rw [c2 v hs hd]

/-- Override tree used to witness the merge characterization. -/
def c5Override : List (String × Val) :=
  [("loader", .dict [("batch_size", .int 2)]), ("extra_key", .int 7)]

/-- Merge result used to witness the merge characterization. -/
def c5Merged : Val := okOr (mergeD DEFAULTS (.dict c5Override)) .none

/-- Witness for C5 at a concrete override: `loader.batch_size` overridden,
one extra key, everything else inherited. -/
theorem c5_merge_characterization_witness :
    nodupKeys DEFAULTS = true ∧
    mergeD DEFAULTS (.dict c5Override) = .ok c5Merged ∧
    (∃ rl, c5Merged = .dict rl ∧ ∀ k : String,
      (∀ sv dv, lookupL DEFAULTS k = some (.dict sv) →
        lookupL c5Override k = some dv →
        ∃ m, mergeD sv dv = .ok m ∧ lookupL rl k = some m) ∧
      (∀ ov, lookupL c5Override k = some ov → isDictV ov = false →
        lookupL rl k = some ov) ∧
      (lookupL c5Override k = Option.none →
        lookupL rl k = lookupL DEFAULTS k)) :=
  ⟨by rfl, by rfl,
    c5_merge_characterization DEFAULTS c5Override c5Merged (by rfl) (by rfl)⟩

/-! ## Path lookups and the idempotence/frame property of the merge (C6) -/


/-- Value found by descending a key path through nested dicts. -/
def lookupPath : Val → List String → Option Val
  | v, [] => some v
  | .dict d, k :: rest =>
    match lookupL d k with
    | some x => lookupPath x rest
    | Option.none => Option.none
  | _, _ :: _ => Option.none

/-- A key path is named by an override tree: every step exists, the last
step being a key of its enclosing mapping. -/
def hasPath : Val → List String → Bool
  | _, [] => true
  | .dict d, k :: rest =>
    match lookupL d k with
    | some x => rest.isEmpty || hasPath x rest
    | Option.none => false
  | _, _ :: _ => false

mutual

/-- A value contains no dict with duplicate keys anywhere in it. -/
def valNodup : Val → Bool
  | .dict d => nodupDeep d
  | _ => true

/-- Entry list with pairwise-distinct keys and deep-nodup values at every
level (true of every tree built of CPython dicts). -/
def nodupDeep : List (String × Val) → Bool
  | [] => true
  | (k, v) :: rest => !(containsL rest k) && valNodup v && nodupDeep rest

end

mutual

/-- Compatibility of a default value with an override value at a shared
key: wherever the default is a mapping, the override is a mapping too,
recursively. -/
def compatV : Val → Val → Bool
  | .dict sv, .dict xl => compat sv xl
  | .dict _, _ => false
  | _, _ => true

/-- An override dict is compatible with the defaults entries (see
`compatV`). Valid YAML override files satisfy this; it rules out a Python
quirk where `k in dst` on a string/list destination silently skips keys. -/
def compat : List (String × Val) → List (String × Val) → Bool
  | [], _ => true
  | (k, v) :: rest, ol =>
    (match lookupL ol k with
     | some x => compatV v x
     | Option.none => true) && compat rest ol

end

theorem lookupPath_nonDict (v : Val) (k : String) (p : List String)
    (hv : isDictV v = false) : lookupPath v (k :: p) = Option.none := by
  cases v <;> simp [lookupPath, isDictV] at hv ⊢

theorem hasPath_false_none (p : List String) :
    ∀ v : Val, hasPath v p = false → lookupPath v p = Option.none := by
  induction p with
  | nil =>
    intro v h
    cases v <;> simp [hasPath] at h
  | cons k rest ih =>
    intro v h
    cases v with
    | dict d =>
      rw [hasPath] at h
      cases hl : lookupL d k with
      | none => simp [lookupPath, hl]
      | some x =>
        rw [hl] at h
        simp only [Bool.or_eq_false_iff] at h
        simp [lookupPath, hl, ih x h.2]
    | int n => simp [lookupPath]
    | str s => simp [lookupPath]
    | bool b => simp [lookupPath]
    | none => simp [lookupPath]
    | float a b => simp [lookupPath]
    | list xs => simp [lookupPath]
    | tuple xs => simp [lookupPath]

theorem sizeOf_lookupL (src : List (String × Val)) (k : String) (v : Val)
    (h : lookupL src k = some v) : sizeOf v < sizeOf src := by
  induction src with
  | nil => simp [lookupL] at h
  | cons p rest ih =>
    obtain ⟨k', v'⟩ := p
    simp only [lookupL] at h
    by_cases hk : k' = k
    · rw [if_pos hk] at h
      obtain rfl : v' = v := by simpa using h
      simp only [List.cons.sizeOf_spec, Prod.mk.sizeOf_spec]
      omega
    · rw [if_neg hk] at h
      have := ih h
      simp only [List.cons.sizeOf_spec]
      omega

theorem nodupDeep_keys (src : List (String × Val)) (h : nodupDeep src = true) :
    nodupKeys src = true := by
  induction src with
  | nil => rfl
  | cons p rest ih =>
    obtain ⟨k, v⟩ := p
    rw [nodupDeep] at h
    simp only [Bool.and_eq_true] at h
    rw [nodupKeys, Bool.and_eq_true]
    exact ⟨h.1.1, ih h.2⟩

theorem nodupDeep_lookup (src : List (String × Val)) (k : String)
    (sv : List (String × Val)) (h : nodupDeep src = true)
    (hl : lookupL src k = some (.dict sv)) : nodupDeep sv = true := by
  induction src with
  | nil => simp [lookupL] at hl
  | cons p rest ih =>
    obtain ⟨k', v'⟩ := p
    rw [nodupDeep] at h
    simp only [Bool.and_eq_true] at h
    by_cases hk : k' = k
    · subst hk
      simp [lookupL] at hl
      subst hl
      simpa [valNodup] using h.1.2
    · have hl' : lookupL rest k = some (.dict sv) := by
        simpa [lookupL, hk] using hl
      exact ih h.2 hl'

theorem compat_cons_tail (k : String) (v : Val) (rest ol : List (String × Val))
    (h : compat ((k, v) :: rest) ol = true) : compat rest ol = true := by
  rw [compat] at h
  simp only [Bool.and_eq_true] at h
  exact h.2

theorem compat_lookup (src ol : List (String × Val)) (k : String)
    (sv : List (String × Val)) (x : Val) (h : compat src ol = true)
    (hs : lookupL src k = some (.dict sv)) (ho : lookupL ol k = some x) :
    ∃ xl, x = .dict xl ∧ compat sv xl = true := by
  induction src with
  | nil => simp [lookupL] at hs
  | cons p rest ih =>
    obtain ⟨k', v'⟩ := p
    by_cases hk : k' = k
    · subst hk
      simp [lookupL] at hs
      subst hs
      rw [compat] at h
      simp only [Bool.and_eq_true] at h
      obtain ⟨h1, _⟩ := h
      rw [ho] at h1
      cases x with
      | dict xl => exact ⟨xl, rfl, by simpa [compatV] using h1⟩
      | int n => simp [compatV] at h1
      | str s => simp [compatV] at h1
      | bool b => simp [compatV] at h1
      | none => simp [compatV] at h1
      | float a b => simp [compatV] at h1
      | list xs => simp [compatV] at h1
      | tuple xs => simp [compatV] at h1
    · have hs' : lookupL rest k = some (.dict sv) := by
        simpa [lookupL, hk] using hs
      exact ih (compat_cons_tail k' v' rest ol h) hs'

/-- Frame property of `_merge` at the path level: merging a compatible
override onto defaults leaves every key path not named in the override
with exactly its value in the defaults tree. -/
theorem mergeD_preserves_paths (n : Nat) :
    ∀ (src : List (String × Val)), sizeOf src ≤ n →
    ∀ (ol : List (String × Val)) (r : Val) (p : List String),
    nodupDeep src = true → compat src ol = true →
    mergeD src (.dict ol) = .ok r → hasPath (.dict ol) p = false →
    lookupPath r p = lookupPath (.dict src) p := by
  induction n with
  | zero =>
    intro src hsz
    exfalso
    have : 1 ≤ sizeOf src := by
      cases src <;> simp only [List.nil.sizeOf_spec, List.cons.sizeOf_spec] <;> omega
    omega
  | succ n ihn =>
    intro src hsz ol r p hnd hcp h hp
    cases p with
    | nil => simp [hasPath] at hp
    | cons k rest =>
      obtain ⟨rl, hr, hcl⟩ := mergeD_lookup src ol r (nodupDeep_keys src hnd) h
      subst hr
      obtain ⟨c1, c2, c3, c4⟩ := hcl k
      rw [hasPath] at hp
      cases ho : lookupL ol k with
      | none =>
        cases hs : lookupL src k with
        | none =>
          have h1 := c1 hs
          rw [ho] at h1
          simp [lookupPath, h1, hs]
        | some v =>
          have h2 := c2 v hs ho
          simp [lookupPath, h2, hs]
      | some x =>
        rw [ho] at hp
        simp only [Bool.or_eq_false_iff] at hp
        obtain ⟨hrne, hpx⟩ := hp
        have hxnone : lookupPath x rest = Option.none := hasPath_false_none rest x hpx
        cases hs : lookupL src k with
        | none =>
          have h1 := c1 hs
          rw [ho] at h1
          simp [lookupPath, h1, hs, hxnone]
        | some v =>
          by_cases hdict : isDictV v = true
          · obtain ⟨sv, rfl⟩ : ∃ sv, v = .dict sv := by
              cases v <;> simp_all [isDictV]
            obtain ⟨xl, rfl, hcsv⟩ := compat_lookup src ol k sv x hcp hs ho
            obtain ⟨m, hm, hrlk⟩ := c3 sv hs (.dict xl) ho
            have hszv : sizeOf sv ≤ n := by
              have h1 := sizeOf_lookupL src k (.dict sv) hs
              have h2 : sizeOf (Val.dict sv) = 1 + sizeOf sv := by
                simp [Val.dict.sizeOf_spec]
              omega
            have hrec := ihn sv hszv xl m rest
              (nodupDeep_lookup src k sv hnd hs) hcsv hm hpx
            simp only [lookupPath, hrlk, hs]
            exact hrec
          · have h4 := c4 v hs (by simpa using hdict) x ho
            obtain ⟨k', rest', rfl⟩ : ∃ k' rest', rest = k' :: rest' := by
              cases rest with
              | nil => simp at hrne
              | cons a b => exact ⟨a, b, rfl⟩
            have hvnone := lookupPath_nonDict v k' rest' (by simpa using hdict)
            simp [lookupPath, h4, hs, hxnone, hvnone]

/-- C6: merging the empty override onto the `DEFAULTS` tree returns the
defaults tree unchanged, and merging any compatible nested override
(`compat`: mapping-shaped wherever the defaults hold a mapping, as every
valid YAML override is) preserves, at every key path not named in the
override, exactly the value of the defaults tree. -/
theorem c6_merge_idempotent :
    mergeD DEFAULTS (.dict []) = .ok (.dict DEFAULTS) ∧
    ∀ (ol : List (String × Val)) (r : Val) (p : List String),
      compat DEFAULTS ol = true → mergeD DEFAULTS (.dict ol) = .ok r →
      hasPath (.dict ol) p = false →
      lookupPath r p = lookupPath (.dict DEFAULTS) p := by
  refine ⟨by rfl, fun ol r p hcp h hp => ?_⟩
  exact mergeD_preserves_paths (sizeOf DEFAULTS) DEFAULTS le_rfl ol r p
    (by rfl) hcp h hp

/-- Override used to witness C6: a deeply nested leaf override. -/
def c6Override : List (String × Val) :=
  [("dataset", .dict [("input_dim", .int 1024)])]

/-- Merge result used to witness C6. -/
def c6Merged : Val := okOr (mergeD DEFAULTS (.dict c6Override)) .none

/-- Witness for C6: overriding `dataset.input_dim` leaves the sibling leaf
`dataset.feat_stride` and the unrelated section `opt` exactly at their
default values. -/
theorem c6_merge_idempotent_witness :
    compat DEFAULTS c6Override = true ∧
    mergeD DEFAULTS (.dict c6Override) = .ok c6Merged ∧
    hasPath (.dict c6Override) ["dataset", "feat_stride"] = false ∧
    lookupPath c6Merged ["dataset", "feat_stride"] =
      lookupPath (.dict DEFAULTS) ["dataset", "feat_stride"] ∧
    lookupPath c6Merged ["dataset", "input_dim"] = some (.int 1024) ∧
    lookupPath (.dict DEFAULTS) ["dataset", "input_dim"] = some (.int 2304) :=
  ⟨by rfl, by rfl, by rfl,
    c6_merge_idempotent.2 c6Override c6Merged ["dataset", "feat_stride"]
      (by rfl) (by rfl) (by rfl),
    by rfl, by rfl⟩

/-! ## Derived model fields after `load_config` (C4) -/

theorem getItemVal_ok_dict (c : Val) (k : String) (x : Val)
    (h : getItemVal c k = .ok x) :
    ∃ cl, c = .dict cl ∧ lookupL cl k = some x := by
  cases c <;> simp only [getItemVal] at h
  case dict cl =>
    cases hl : lookupL cl k with
    | none => rw [hl] at h; simp at h
    | some y =>
      rw [hl] at h
      simp at h
      exact ⟨cl, rfl, by rw [hl, h]⟩
  all_goals simp_all

theorem setItemVal_ok_dict (m : Val) (k : String) (x m' : Val)
    (h : setItemVal m k x = .ok m') :
    ∃ ml, m = .dict ml ∧ m' = .dict (setL ml k x) := by
  cases m <;> simp only [setItemVal] at h
  case dict ml => exact ⟨ml, rfl, by simp_all⟩
  all_goals simp_all

theorem lookupPath_single (c : Val) (k : String) (x : Val)
    (h : getItemVal c k = .ok x) : lookupPath c [k] = some x := by
  obtain ⟨cl, rfl, hl⟩ := getItemVal_ok_dict c k x h
  simp [lookupPath, hl]

/-- Full effect of one `config["model"][key] = v` assignment: the field is
set, every other model field is unchanged, and every non-`"model"`
top-level key (with everything under it) is untouched. -/
theorem setModelField_props (c : Val) (key : String) (v : Val) (c' : Val)
    (h : setModelField c key v = .ok c') :
    lookupPath c' ["model", key] = some v ∧
    (∀ key₂, key₂ ≠ key → lookupPath c' ["model", key₂] = lookupPath c ["model", key₂]) ∧
    (∀ tk, tk ≠ "model" → ∀ p, lookupPath c' (tk :: p) = lookupPath c (tk :: p)) ∧
    (∀ tk, tk ≠ "model" → getItemVal c' tk = getItemVal c tk) := by
  rw [setModelField] at h
  cases h1 : getItemVal c "model" with
  | error e => rw [h1] at h; simp at h
  | ok m =>
    rw [h1] at h
    dsimp only at h
    cases h2 : setItemVal m key v with
    | error e => rw [h2] at h; simp at h
    | ok m' =>
      rw [h2] at h
      dsimp only at h
      obtain ⟨cl, rfl, hcl⟩ := getItemVal_ok_dict c "model" m h1
      obtain ⟨ml, rfl, rfl⟩ := setItemVal_ok_dict m key v m' h2
      obtain ⟨cl2, hceq, hc'⟩ := setItemVal_ok_dict (.dict cl) "model"
        (.dict (setL ml key v)) c' h
      obtain rfl : cl2 = cl := by
        simpa [Val.dict.injEq] using hceq.symm
      subst hc'
      refine ⟨?_, ?_, ?_, ?_⟩
      · simp [lookupPath, lookupL_setL_self]
      · intro key₂ hne
        simp [lookupPath, lookupL_setL_self, hcl,
          lookupL_setL_other ml key key₂ v hne]
      · intro tk htk p
        simp [lookupPath, lookupL_setL_other _ "model" tk _ htk]
      · intro tk htk
        simp [getItemVal, lookupL_setL_other _ "model" tk _ htk]

/-- C4: after every successful `load_config` call, the derived model
fields hold exactly their dataset-side sources, and the model sub-dict
holds the merged `train_cfg`, `test_cfg` and `cl_cfg` sub-configs, for
arbitrary override trees and defaults. -/
theorem c4_load_config_derived (defaults : List (String × Val)) (cfg c : Val)
    (h : load_config defaults cfg = .ok c) :
    (∃ v, lookupPath c ["model", "input_dim"] = some v ∧
      lookupPath c ["dataset", "input_dim"] = some v) ∧
    (∃ v, lookupPath c ["model", "num_classes"] = some v ∧
      lookupPath c ["dataset", "num_classes"] = some v) ∧
    (∃ v, lookupPath c ["model", "max_seq_len"] = some v ∧
      lookupPath c ["dataset", "max_seq_len"] = some v) ∧
    (∃ v, lookupPath c ["model", "train_cfg"] = some v ∧
      lookupPath c ["train_cfg"] = some v) ∧
    (∃ v, lookupPath c ["model", "test_cfg"] = some v ∧
      lookupPath c ["test_cfg"] = some v) ∧
    (∃ v, lookupPath c ["model", "cl_cfg"] = some v ∧
      lookupPath c ["cl_cfg"] = some v) := by
  rw [load_config] at h
  cases hm : mergeD defaults cfg with
  | error e => rw [hm] at h; simp at h
  | ok c0 =>
  rw [hm] at h
  dsimp only at h
  rw [update_config] at h
  cases g1 : getItemVal c0 "dataset" with
  | error e => rw [g1] at h; simp at h
  | ok ds =>
  rw [g1] at h; dsimp only at h
  cases g2 : getItemVal ds "input_dim" with
  | error e => rw [g2] at h; simp at h
  | ok v1 =>
  rw [g2] at h; dsimp only at h
  cases s1 : setModelField c0 "input_dim" v1 with
  | error e => rw [s1] at h; simp at h
  | ok c1 =>
  rw [s1] at h; dsimp only at h
  cases g3 : getItemVal c1 "dataset" with
  | error e => rw [g3] at h; simp at h
  | ok ds2 =>
  rw [g3] at h; dsimp only at h
  cases g4 : getItemVal ds2 "num_classes" with
  | error e => rw [g4] at h; simp at h
  | ok v2 =>
  rw [g4] at h; dsimp only at h
  cases s2 : setModelField c1 "num_classes" v2 with
  | error e => rw [s2] at h; simp at h
  | ok c2 =>
  rw [s2] at h; dsimp only at h
  cases g5 : getItemVal c2 "dataset" with
  | error e => rw [g5] at h; simp at h
  | ok ds3 =>
  rw [g5] at h; dsimp only at h
  cases g6 : getItemVal ds3 "max_seq_len" with
  | error e => rw [g6] at h; simp at h
  | ok v3 =>
  rw [g6] at h; dsimp only at h
  cases s3 : setModelField c2 "max_seq_len" v3 with
  | error e => rw [s3] at h; simp at h
  | ok c3 =>
  rw [s3] at h; dsimp only at h
  cases g7 : getItemVal c3 "train_cfg" with
  | error e => rw [g7] at h; simp at h
  | ok v4 =>
  rw [g7] at h; dsimp only at h
  cases s4 : setModelField c3 "train_cfg" v4 with
  | error e => rw [s4] at h; simp at h
  | ok c4 =>
  rw [s4] at h; dsimp only at h
  cases g8 : getItemVal c4 "test_cfg" with
  | error e => rw [g8] at h; simp at h
  | ok v5 =>
  rw [g8] at h; dsimp only at h
  cases s5 : setModelField c4 "test_cfg" v5 with
  | error e => rw [s5] at h; simp at h
  | ok c5 =>
  rw [s5] at h; dsimp only at h
  cases g9 : getItemVal c5 "cl_cfg" with
  | error e => rw [g9] at h; simp at h
  | ok v6 =>
  rw [g9] at h; dsimp only at h
  cases s6 : setModelField c5 "cl_cfg" v6 with
  | error e => rw [s6] at h; simp at h
  | ok c6 =>
  rw [s6] at h; dsimp only at h
  obtain rfl : c6 = c := by simpa using h
  obtain ⟨p1a, p1b, p1c, p1d⟩ := setModelField_props c0 "input_dim" v1 c1 s1
  obtain ⟨p2a, p2b, p2c, p2d⟩ := setModelField_props c1 "num_classes" v2 c2 s2
  obtain ⟨p3a, p3b, p3c, p3d⟩ := setModelField_props c2 "max_seq_len" v3 c3 s3
  obtain ⟨p4a, p4b, p4c, p4d⟩ := setModelField_props c3 "train_cfg" v4 c4 s4
  obtain ⟨p5a, p5b, p5c, p5d⟩ := setModelField_props c4 "test_cfg" v5 c5 s5
  obtain ⟨p6a, p6b, p6c, p6d⟩ := setModelField_props c5 "cl_cfg" v6 c6 s6
  refine ⟨⟨v1, ?_, ?_⟩, ⟨v2, ?_, ?_⟩, ⟨v3, ?_, ?_⟩, ⟨v4, ?_, ?_⟩,
    ⟨v5, ?_, ?_⟩, ⟨v6, ?_, ?_⟩⟩
  · rw [p6b "input_dim" (by decide), p5b "input_dim" (by decide),
      p4b "input_dim" (by decide), p3b "input_dim" (by decide),
      p2b "input_dim" (by decide), p1a]
  · obtain ⟨cl0, rfl, hlds⟩ := getItemVal_ok_dict c0 "dataset" ds g1
    rw [p6c "dataset" (by decide), p5c "dataset" (by decide),
      p4c "dataset" (by decide), p3c "dataset" (by decide),
      p2c "dataset" (by decide), p1c "dataset" (by decide)]
    simp only [lookupPath, hlds]
    exact lookupPath_single ds "input_dim" v1 g2
  · rw [p6b "num_classes" (by decide), p5b "num_classes" (by decide),
      p4b "num_classes" (by decide), p3b "num_classes" (by decide), p2a]
  · obtain ⟨cl1, hc1, hlds2⟩ := getItemVal_ok_dict c1 "dataset" ds2 g3
    rw [p6c "dataset" (by decide), p5c "dataset" (by decide),
      p4c "dataset" (by decide), p3c "dataset" (by decide),
      p2c "dataset" (by decide), hc1]
    simp only [lookupPath, hlds2]
    exact lookupPath_single ds2 "num_classes" v2 g4
  · rw [p6b "max_seq_len" (by decide), p5b "max_seq_len" (by decide),
      p4b "max_seq_len" (by decide), p3a]
  · obtain ⟨cl2, hc2, hlds3⟩ := getItemVal_ok_dict c2 "dataset" ds3 g5
    rw [p6c "dataset" (by decide), p5c "dataset" (by decide),
      p4c "dataset" (by decide), p3c "dataset" (by decide), hc2]
    simp only [lookupPath, hlds3]
    exact lookupPath_single ds3 "max_seq_len" v3 g6
  · rw [p6b "train_cfg" (by decide), p5b "train_cfg" (by decide), p4a]
  · rw [p6c "train_cfg" (by decide), p5c "train_cfg" (by decide),
      p4c "train_cfg" (by decide)]
    exact lookupPath_single c3 "train_cfg" v4 g7
  · rw [p6b "test_cfg" (by decide), p5a]
  · rw [p6c "test_cfg" (by decide), p5c "test_cfg" (by decide)]
    exact lookupPath_single c4 "test_cfg" v5 g8
  · exact p6a
  · rw [p6c "cl_cfg" (by decide)]
    exact lookupPath_single c5 "cl_cfg" v6 g9

/-- Config produced by loading the empty override onto `DEFAULTS`. -/
def c4Config : Val := okOr (load_config DEFAULTS (.dict [])) .none

/-- Witness for C4: the empty override file. -/
theorem c4_load_config_derived_witness :
    load_config DEFAULTS (.dict []) = .ok c4Config ∧
    ((∃ v, lookupPath c4Config ["model", "input_dim"] = some v ∧
      lookupPath c4Config ["dataset", "input_dim"] = some v) ∧
    (∃ v, lookupPath c4Config ["model", "num_classes"] = some v ∧
      lookupPath c4Config ["dataset", "num_classes"] = some v) ∧
    (∃ v, lookupPath c4Config ["model", "max_seq_len"] = some v ∧
      lookupPath c4Config ["dataset", "max_seq_len"] = some v) ∧
    (∃ v, lookupPath c4Config ["model", "train_cfg"] = some v ∧
      lookupPath c4Config ["train_cfg"] = some v) ∧
    (∃ v, lookupPath c4Config ["model", "test_cfg"] = some v ∧
      lookupPath c4Config ["test_cfg"] = some v) ∧
    (∃ v, lookupPath c4Config ["model", "cl_cfg"] = some v ∧
      lookupPath c4Config ["cl_cfg"] = some v)) :=
  ⟨by rfl, c4_load_config_derived DEFAULTS (.dict []) c4Config (by rfl)⟩

/-! ## Heap model of the config module (C10): reference semantics

CPython dicts are heap objects passed by reference. `HVal` is a runtime
value whose dicts are addresses into a `Heap`; `_merge`, `_update_config`
and `load_config` are re-read on this model with in-place mutation, to
settle what happens to the module-global `DEFAULTS` object. -/

/-- A runtime value: dicts live in the heap, referenced by address;
everything else is immediate. -/
inductive HVal where
  | int : Int → HVal
  | str : String → HVal
  | bool : Bool → HVal
  | none : HVal
  | float : Int → Nat → HVal
  | list : List HVal → HVal
  | tuple : List HVal → HVal
  | ref : Nat → HVal

/-- The heap: dict objects by address (the address is the position). -/
abbrev Heap := List (List (String × HVal))

def lookupHL (d : List (String × HVal)) (k : String) : Option HVal :=
  match d with
  | [] => Option.none
  | (k', v') :: rest => if k' = k then some v' else lookupHL rest k

def setHL (d : List (String × HVal)) (k : String) (v : HVal) : List (String × HVal) :=
  match d with
  | [] => [(k, v)]
  | (k', v') :: rest => if k' = k then (k, v) :: rest else (k', v') :: setHL rest k v

def containsHL (d : List (String × HVal)) (k : String) : Bool :=
  match d with
  | [] => false
  | (k', _) :: rest => if k' = k then true else containsHL rest k

/-- The dict object stored at address `a` (all addresses dereferenced in
the modelled runs are valid). -/
def heapGetD (h : Heap) (a : Nat) : List (String × HVal) := h.getD a []

def isStrEqH (v : HVal) (k : String) : Bool :=
  match v with
  | .str s => s = k
  | _ => false

/-- Python `k in v` on runtime values. -/
def hContains (h : Heap) (v : HVal) (k : String) : Except String Bool :=
  match v with
  | .ref a => .ok (containsHL (heapGetD h a) k)
  | .str s => .ok (strContains s k)
  | .list xs => .ok (xs.any (fun x => isStrEqH x k))
  | .tuple xs => .ok (xs.any (fun x => isStrEqH x k))
  | _ => .error "TypeError: argument is not iterable"

/-- Python `v[k]` on runtime values. -/
def hGet (h : Heap) (v : HVal) (k : String) : Except String HVal :=
  match v with
  | .ref a =>
    match lookupHL (heapGetD h a) k with
    | some x => .ok x
    | Option.none => .error "KeyError"
  | _ => .error "TypeError: value is not subscriptable by str"

/-- Python `v[k] = x` on runtime values: mutates the dict object in the
heap; every alias of that object observes the update. -/
def hSet (h : Heap) (v : HVal) (k : String) (x : HVal) : Except String Heap :=
  match v with
  | .ref a => .ok (h.set a (setHL (heapGetD h a) k x))
  | _ => .error "TypeError: value does not support item assignment by str"

/-- Chained `v[k1][k2]...` reads. -/
def hGetPath (h : Heap) (v : HVal) : List String → Except String HVal
  | [] => .ok v
  | k :: rest =>
    match hGet h v k with
    | .error e => .error e
    | .ok x => hGetPath h x rest

/-- The body of `_merge`'s loop over `src.items()`, heap version;
`submerge` is the recursive `_merge` call. -/
def mergeHGo (submerge : HVal → HVal → Heap → Except String Heap) :
    List (String × HVal) → HVal → Heap → Except String Heap
  | [], _, h => .ok h
  | (k, v) :: rest, dst, h =>
    match hContains h dst k with
    | .error e => .error e
    | .ok true =>
      match v with
      | .ref sa =>
        match hGet h dst k with
        | .error e => .error e
        | .ok x =>
          match submerge (.ref sa) x h with
          | .error e => .error e
          | .ok h' => mergeHGo submerge rest dst h'
      | _ => mergeHGo submerge rest dst h
    | .ok false =>
      match hSet h dst k v with
      | .error e => .error e
      | .ok h' => mergeHGo submerge rest dst h'

/-- `_merge(src, dst)` on the heap, mutating `dst`'s dict objects in
place. `fuel` models the CPython recursion limit (1000); the trees in this
module have depth at most 3. -/
def mergeH : Nat → HVal → HVal → Heap → Except String Heap
  | 0, _, _, _ => .error "RecursionError: maximum recursion depth exceeded"
  | fuel + 1, src, dst, h =>
    match src with
    | .ref sa => mergeHGo (fun a b hh => mergeH fuel a b hh) (heapGetD h sa) dst h
    | _ => .error "AttributeError: items"

/-- `config["model"][key] = v`, heap version: mutates the dict object
that `config["model"]` refers to — which may be the global defaults'. -/
def assignModelFieldH (h : Heap) (c : HVal) (key : String) (v : HVal) :
    Except String Heap :=
  match hGet h c "model" with
  | .error e => .error e
  | .ok m => hSet h m key v

/-- `_update_config(config)` on the heap: the six assignments of the
source, in order, each reading from the current heap. Returns `config`
itself (the same object). -/
def update_configH (c : HVal) (h : Heap) : Except String (HVal × Heap) :=
  match hGet h c "dataset" with
  | .error e => .error e
  | .ok ds =>
  match hGet h ds "input_dim" with
  | .error e => .error e
  | .ok v1 =>
  match assignModelFieldH h c "input_dim" v1 with
  | .error e => .error e
  | .ok h1 =>
  match hGet h1 c "dataset" with
  | .error e => .error e
  | .ok ds2 =>
  match hGet h1 ds2 "num_classes" with
  | .error e => .error e
  | .ok v2 =>
  match assignModelFieldH h1 c "num_classes" v2 with
  | .error e => .error e
  | .ok h2 =>
  match hGet h2 c "dataset" with
  | .error e => .error e
  | .ok ds3 =>
  match hGet h2 ds3 "max_seq_len" with
  | .error e => .error e
  | .ok v3 =>
  match assignModelFieldH h2 c "max_seq_len" v3 with
  | .error e => .error e
  | .ok h3 =>
  match hGet h3 c "train_cfg" with
  | .error e => .error e
  | .ok v4 =>
  match assignModelFieldH h3 c "train_cfg" v4 with
  | .error e => .error e
  | .ok h4 =>
  match hGet h4 c "test_cfg" with
  | .error e => .error e
  | .ok v5 =>
  match assignModelFieldH h4 c "test_cfg" v5 with
  | .error e => .error e
  | .ok h5 =>
  match hGet h5 c "cl_cfg" with
  | .error e => .error e
  | .ok v6 =>
  match assignModelFieldH h5 c "cl_cfg" v6 with
  | .error e => .error e
  | .ok h6 => .ok (c, h6)

/-- `load_config` on the heap, after the external YAML parse produced the
override object `cfg`: `_merge(defaults, cfg)` then `_update_config(cfg)`. -/
def load_configH (defaultsRef cfg : HVal) (h : Heap) :
    Except String (HVal × Heap) :=
  match mergeH 100 defaultsRef cfg h with
  | .error e => .error e
  | .ok h' => update_configH cfg h'

mutual

/-- Allocate a pure value tree in the heap: every dict becomes a fresh
heap object (children first), everything else is immediate. This builds
the module's initial state from the `DEFAULTS` literal. -/
def allocVal : Val → Heap → HVal × Heap
  | .dict entries, h =>
    match allocEntries entries h with
    | (es, h') => (.ref h'.length, h' ++ [es])
  | .list xs, h =>
    match allocList xs h with
    | (ys, h') => (.list ys, h')
  | .tuple xs, h =>
    match allocList xs h with
    | (ys, h') => (.tuple ys, h')
  | .int n, h => (.int n, h)
  | .str s, h => (.str s, h)
  | .bool b, h => (.bool b, h)
  | .none, h => (.none, h)
  | .float a b, h => (.float a b, h)

def allocEntries : List (String × Val) → Heap → List (String × HVal) × Heap
  | [], h => ([], h)
  | (k, v) :: rest, h =>
    match allocVal v h with
    | (hv, h') =>
      match allocEntries rest h' with
      | (es, h'') => ((k, hv) :: es, h'')

def allocList : List Val → Heap → List HVal × Heap
  | [], h => ([], h)
  | v :: rest, h =>
    match allocVal v h with
    | (hv, h') =>
      match allocList rest h' with
      | (es, h'') => (hv :: es, h'')

end

/-- The module state right after `import`: the `DEFAULTS` literal
allocated in an empty heap. -/
def initAlloc : HVal × Heap := allocVal (.dict DEFAULTS) []

/-- The module-global `DEFAULTS` object. -/
def theDefaults : HVal := initAlloc.1

/-- The heap right after `import`. -/
def heap0 : Heap := initAlloc.2

/-- `load_default_config()` returns the module-global `DEFAULTS` object
itself (`config = DEFAULTS; return config`), not a copy. -/
def load_default_configH : HVal := theDefaults

/-- The heap after the YAML parser allocated an empty override mapping
(an override file that omits every section). -/
def heapParsed : Heap := heap0 ++ [[]]

/-- The parsed override object. -/
def overrideRef : HVal := .ref heap0.length

/-- The first `load_config` call on the empty override. -/
def firstLoad : Except String (HVal × Heap) := load_configH theDefaults overrideRef heapParsed

/-- The heap after the first `load_config` call. -/
def heapAfter : Heap :=
  match firstLoad with
  | .ok (_, h) => h
  | .error _ => []

/-- C10: `load_config` copies the defaults' nested sub-dicts by
reference and `load_default_config` returns the module-global `DEFAULTS`
object itself; when the override file omits the `model` section, the
derivation pass of `_update_config` mutates the global `DEFAULTS` tree in
place (inserting `input_dim`, `num_classes`, `max_seq_len` and the
`train_cfg` reference into the shared `model` sub-dict), so a subsequent
`load_default_config` observes the modified defaults. All facts are
computed on the heap model from the module's initial state. -/
theorem c10_defaults_mutation :
    load_default_configH = theDefaults ∧
    theDefaults = .ref 7 ∧
    hGet heap0 theDefaults "model" = .ok (.ref 2) ∧
    hGet heap0 theDefaults "train_cfg" = .ok (.ref 3) ∧
    hGetPath heap0 theDefaults ["model", "input_dim"] = .error "KeyError" ∧
    firstLoad = .ok (overrideRef, heapAfter) ∧
    hGet heapAfter overrideRef "model" = .ok (.ref 2) ∧
    hGetPath heapAfter theDefaults ["model", "input_dim"] = .ok (.int 2304) ∧
    hGetPath heapAfter theDefaults ["model", "num_classes"] = .ok (.int 97) ∧
    hGetPath heapAfter theDefaults ["model", "max_seq_len"] = .ok (.int 2304) ∧
    hGetPath heapAfter theDefaults ["model", "train_cfg"] = .ok (.ref 3) ∧
    hGetPath heapAfter load_default_configH ["model", "input_dim"] = .ok (.int 2304) :=
  ⟨rfl, by rfl, by rfl, by rfl, by rfl, by rfl, by rfl, by rfl, by rfl,
    by rfl, by rfl, by rfl⟩

/-! ## Tensor model and `get_bbox_top` from `VQ/func/train_head.py` (C2, C3)

Tensors are modelled as a dynamic shape plus row-major flat data, exactly
as in the framework; each library primitive (`einops.rearrange`,
`torch.max`, `unsqueeze`, `repeat`, `gather`, `squeeze`) is modelled at
the call-site dtype/arity used by `get_bbox_top`, including its runtime
shape errors. Probabilities are exact rationals: `get_bbox_top` only
moves and compares values (max/argmax/gather involve no arithmetic), so
comparison-based selection semantics are unchanged. -/

structure Tensor (α : Type) where
  shape : List Nat
  data : List α

/-- `einops.rearrange(x, 'b t N -> (b t) N')`. -/
def flattenBT2 {α : Type} (x : Tensor α) : Except String (Tensor α) :=
  match x.shape with
  | [b, t, n] => .ok ⟨[b * t, n], x.data⟩
  | _ => .error "einops: expected 3 axes"

/-- `einops.rearrange(x, 'b t N c -> (b t) N c')`. -/
def flattenBT3 {α : Type} (x : Tensor α) : Except String (Tensor α) :=
  match x.shape with
  | [b, t, n, c] => .ok ⟨[b * t, n, c], x.data⟩
  | _ => .error "einops: expected 4 axes"

/-- Maximum and first-occurrence argmax of a nonempty list (the
documented tie-break of `torch.max` along a dimension). -/
def argmaxAux : List ℚ → ℚ × Nat
  | [] => (0, 0)
  | a :: rest =>
    match rest with
    | [] => (a, 0)
    | b :: rest2 =>
      match argmaxAux (b :: rest2) with
      | (m, i) => if m > a then (m, i + 1) else (a, 0)

/-- Row `i` of a row-major `[m, n]` tensor. -/
def chunkOf (data : List ℚ) (n i : Nat) : List ℚ :=
  (List.range n).map (fun j => data.getD (i * n + j) 0)

/-- `torch.max(x, dim=-1)` at the 2-d call site: per-row maximum values
and first-occurrence argmax indices. -/
def torchMaxLastDim (x : Tensor ℚ) : Except String (Tensor ℚ × Tensor Nat) :=
  match x.shape with
  | [m, n] =>
    if n = 0 then .error "max: cannot reduce an empty dimension" else
      .ok (⟨[m], (List.range m).map (fun i => (argmaxAux (chunkOf x.data n i)).1)⟩,
           ⟨[m], (List.range m).map (fun i => (argmaxAux (chunkOf x.data n i)).2)⟩)
  | _ => .error "max: modelled at the 2-d call-site arity"

/-- `x.unsqueeze(-1)`. -/
def unsqueezeLast {α : Type} (x : Tensor α) : Tensor α := ⟨x.shape ++ [1], x.data⟩

/-- `x.repeat(r0, r1, r2)` on a 3-d index tensor: tile the data. -/
def repeat3 (x : Tensor Nat) (r0 r1 r2 : Nat) : Except String (Tensor Nat) :=
  match x.shape with
  | [d0, d1, d2] =>
    .ok ⟨[d0 * r0, d1 * r1, d2 * r2],
      (List.range (d0 * r0 * (d1 * r1) * (d2 * r2))).map (fun f =>
        x.data.getD
          ((f / (d1 * r1 * (d2 * r2)) % d0 * d1 + f / (d2 * r2) % (d1 * r1) % d1) * d2 +
            f % (d2 * r2) % d2) 0)⟩
  | _ => .error "repeat: modelled at the 3-d call-site arity"

/-- `torch.gather(input, dim=1, index)` on 3-d tensors:
`out[i,j,k] = input[i, index[i,j,k], k]`, with torch's shape requirement
`index.size(d) ≤ input.size(d)` for `d ≠ 1` and its runtime
out-of-bounds check on index values. -/
def gatherDim1 (input : Tensor ℚ) (index : Tensor Nat) : Except String (Tensor ℚ) :=
  match input.shape, index.shape with
  | [d0, d1, d2], [e0, e1, e2] =>
    if e0 ≤ d0 ∧ e2 ≤ d2 then
      if index.data.all (fun ix => decide (ix < d1)) then
        .ok ⟨[e0, e1, e2],
          (List.range (e0 * e1 * e2)).map (fun f =>
            input.data.getD ((f / (e1 * e2) * d1 + index.data.getD f 0) * d2 + f % e2) 0)⟩
      else .error "gather: index out of bounds"
    else .error "gather: index tensor too large"
  | _, _ => .error "gather: modelled at the 3-d call-site arity"

/-- `x.squeeze()`: drop every axis of extent 1. -/
def squeezeAll {α : Type} (x : Tensor α) : Tensor α :=
  ⟨x.shape.filter (fun d => decide (d ≠ 1)), x.data⟩

/-- `einops.rearrange(x, '(b t) -> b t', b=b, t=t)`. -/
def unflatten1 {α : Type} (b t : Nat) (x : Tensor α) : Except String (Tensor α) :=
  match x.shape with
  | [m] =>
    if m = b * t then .ok ⟨[b, t], x.data⟩
    else .error "einops: axis does not decompose"
  | _ => .error "einops: expected 1 axis"

/-- `einops.rearrange(x, '(b t) c -> b t c', b=b, t=t)`. -/
def unflatten2 {α : Type} (b t : Nat) (x : Tensor α) : Except String (Tensor α) :=
  match x.shape with
  | [m, c] =>
    if m = b * t then .ok ⟨[b, t, c], x.data⟩
    else .error "einops: axis does not decompose"
  | _ => .error "einops: expected 2 axes"

/-- `get_bbox_top(preds)` from `VQ/func/train_head.py`: select, per
`(batch, time)` cell, the candidate of maximum probability and its box.

    pred_prob, top_idx = torch.max(pred_prob, dim=-1)
    pred_bbox = torch.gather(pred_bbox, dim=1,
        index=top_idx.unsqueeze(-1).unsqueeze(-1).repeat(1,1,4)).squeeze()

The input dict holds `prob` `[b,t,N]` and `bbox` `[b,t,N,4]`. -/
def get_bbox_top (prob bbox : Tensor ℚ) : Except String (Tensor ℚ × Tensor ℚ) :=
  match prob.shape with
  | [b, t, _] =>
    match flattenBT2 prob with
    | .error e => .error e
    | .ok p2 =>
    match flattenBT3 bbox with
    | .error e => .error e
    | .ok bb2 =>
    match torchMaxLastDim p2 with
    | .error e => .error e
    | .ok (pm, ti) =>
    match repeat3 (unsqueezeLast (unsqueezeLast ti)) 1 1 4 with
    | .error e => .error e
    | .ok tir =>
    match gatherDim1 bb2 tir with
    | .error e => .error e
    | .ok g =>
    match unflatten1 b t pm with
    | .error e => .error e
    | .ok pOut =>
    match unflatten2 b t (squeezeAll g) with
    | .error e => .error e
    | .ok bOut => .ok (pOut, bOut)
  | _ => .error "ValueError: cannot unpack shape"

/-- C3: `get_bbox_top` crashes for a degenerate batch `B = T = 1` (any
candidate count): `.squeeze()` collapses the gathered `[1, 1, 4]` box
tensor to `[4]`, contradicting the source's own `# [b*t,4]` shape
comment, and the final rearrange `'(b t) c -> b t c'` raises instead of
returning shapes `[1, 1]` and `[1, 1, 4]`. -/
theorem c3_get_bbox_top_crash :
    get_bbox_top ⟨[1, 1, 1], [(1 : ℚ) / 2]⟩
        ⟨[1, 1, 1, 4], [1, 2, 3, 4]⟩ =
      .error "einops: expected 2 axes" := by rfl

theorem argmaxAux_spec (l : List ℚ) (hne : l ≠ []) :
    (argmaxAux l).2 < l.length ∧
    l.getD (argmaxAux l).2 0 = (argmaxAux l).1 ∧
    (∀ j, j < l.length → l.getD j 0 ≤ (argmaxAux l).1) ∧
    (∀ j, j < (argmaxAux l).2 → l.getD j 0 < (argmaxAux l).1) := by
  induction l with
  | nil => simp at hne
  | cons a rest ih =>
    cases rest with
    | nil =>
      refine ⟨by simp [argmaxAux], by simp [argmaxAux], ?_, ?_⟩
      · intro j hj
        obtain rfl : j = 0 := Nat.lt_one_iff.mp (by simpa using hj)
        simp [argmaxAux]
      · intro j hj
        simp [argmaxAux] at hj
    | cons b rest2 =>
      obtain ⟨ihb, ihg, ihle, ihlt⟩ := ih (by simp)
      have hred : argmaxAux (a :: b :: rest2) =
          (match argmaxAux (b :: rest2) with
           | (m, i) => if m > a then (m, i + 1) else (a, 0)) := rfl
      rcases ham : argmaxAux (b :: rest2) with ⟨m, i⟩
      rw [ham] at ihb ihg ihle ihlt
      rw [hred, ham]
      dsimp only
      by_cases hma : m > a
      · rw [if_pos hma]
        refine ⟨by simpa using Nat.succ_lt_succ ihb, by simpa using ihg, ?_, ?_⟩
        · intro j hj
          cases j with
          | zero => simpa using le_of_lt hma
          | succ j2 =>
            simp only [List.getD_cons_succ]
            exact ihle j2 (by simpa using hj)
        · intro j hj
          cases j with
          | zero => simpa using hma
          | succ j2 =>
            simp only [List.getD_cons_succ]
            exact ihlt j2 (by omega)
      · rw [if_neg hma]
        push_neg at hma
        refine ⟨by simp, by simp, ?_, ?_⟩
        · intro j hj
          cases j with
          | zero => simp
          | succ j2 =>
            simp only [List.getD_cons_succ]
            exact le_trans (ihle j2 (by simpa using hj)) hma
        · intro j hj
          simp at hj

theorem getD_map_range {α : Type} (f : Nat → α) (m i : Nat) (d : α)
    (h : i < m) : ((List.range m).map f).getD i d = f i := by
  rw [List.getD_eq_getElem?_getD, List.getElem?_map, List.getElem?_range h]
  rfl

theorem mul_add_lt (i j B T : Nat) (hi : i < B) (hj : j < T) :
    i * T + j < B * T := by
  have h1 : (i + 1) * T = i * T + T := by ring
  have h2 : (i + 1) * T ≤ B * T := Nat.mul_le_mul_right T hi
  omega

/-- C2: for every probability tensor `[B,T,N]` and box tensor
`[B,T,N,4]`, whenever `get_bbox_top` returns, the probability output at
each `(i, j)` cell is the maximum over the `N` candidates, attained at
the first-occurrence argmax index `k0` (every earlier candidate is
strictly smaller), and the box output at `(i, j)` is exactly the input
box of candidate `k0`. -/
theorem c2_get_bbox_top_argmax (B T N : Nat) (p bb pr br : Tensor ℚ)
    (hps : p.shape = [B, T, N]) (hbs : bb.shape = [B, T, N, 4])
    (h : get_bbox_top p bb = .ok (pr, br)) :
    pr.shape = [B, T] ∧ br.shape = [B, T, 4] ∧
    ∀ i j, i < B → j < T →
      ∃ k0, k0 < N ∧
        (∀ k, k < N →
          p.data.getD ((i * T + j) * N + k) 0 ≤ p.data.getD ((i * T + j) * N + k0) 0) ∧
        (∀ k, k < k0 →
          p.data.getD ((i * T + j) * N + k) 0 < p.data.getD ((i * T + j) * N + k0) 0) ∧
        pr.data.getD (i * T + j) 0 = p.data.getD ((i * T + j) * N + k0) 0 ∧
        (∀ c, c < 4 →
          br.data.getD ((i * T + j) * 4 + c) 0 =
            bb.data.getD (((i * T + j) * N + k0) * 4 + c) 0) := by
  simp only [get_bbox_top, hps, flattenBT2, flattenBT3, hbs, torchMaxLastDim] at h
  by_cases hN : N = 0
  · simp [hN] at h
  rw [if_neg hN] at h
  simp only [unsqueezeLast, List.cons_append, List.nil_append, repeat3] at h
  simp only [gatherDim1] at h
  rw [if_pos (show B * T * 1 ≤ B * T ∧ 1 * 4 ≤ 4 by simp)] at h
  split at h
  · simp at h
  next g heq =>
    split at heq
    case isFalse => simp at heq
    case isTrue hall =>
      rw [Except.ok.injEq] at heq
      subst heq
      simp only [unflatten1, squeezeAll, unflatten2, if_true] at h
      by_cases hbt : B * T = 1
      · simp [hbt] at h
      have hfil : List.filter (fun d => decide (d ≠ 1)) [B * T * 1, 1 * 1, 1 * 4] =
          [B * T * 1, 4] := by
        simp [hbt]
      rw [hfil] at h
      dsimp only at h
      rw [if_pos (by ring)] at h
      rw [Except.ok.injEq, Prod.mk.injEq] at h
      obtain ⟨hpr, hbr⟩ := h
      subst hpr
      subst hbr
      refine ⟨rfl, rfl, ?_⟩
      intro i j hi hj
      have hG : i * T + j < B * T := mul_add_lt i j B T hi hj
      have hlen : (chunkOf p.data N (i * T + j)).length = N := by simp [chunkOf]
      have hne : chunkOf p.data N (i * T + j) ≠ [] := by
        intro hcon
        rw [hcon] at hlen
        simp at hlen
        exact hN hlen.symm
      obtain ⟨hk0lt, hk0get, hle, hlt⟩ := argmaxAux_spec _ hne
      rw [hlen] at hk0lt
      have hchunk : ∀ k, k < N →
          (chunkOf p.data N (i * T + j)).getD k 0 = p.data.getD ((i * T + j) * N + k) 0 := by
        intro k hk
        exact getD_map_range _ N k 0 hk
      have hkey : p.data.getD ((i * T + j) * N + (argmaxAux (chunkOf p.data N (i * T + j))).2) 0 =
          (argmaxAux (chunkOf p.data N (i * T + j))).1 := by
        rw [← hchunk _ hk0lt]
        exact hk0get
      refine ⟨(argmaxAux (chunkOf p.data N (i * T + j))).2, hk0lt, ?_, ?_, ?_, ?_⟩
      · intro k hk
        rw [hkey, ← hchunk _ hk]
        exact hle k (by rw [hlen]; exact hk)
      · intro k hk
        rw [hkey, ← hchunk _ (lt_trans hk hk0lt)]
        exact hlt k hk
      · rw [hkey]
        dsimp only
        exact getD_map_range _ _ _ _ hG
      · intro c hc
        dsimp only
        have hb : (i * T + j) * 4 + c < B * T * 1 * (1 * 1) * (1 * 4) := by
          have h1 := mul_add_lt (i * T + j) c (B * T) 4 hG hc
          have h2 : B * T * 1 * (1 * 1) * (1 * 4) = B * T * 4 := by ring
          omega
        rw [getD_map_range _ _ _ _ hb]
        rw [getD_map_range _ _ _ _ hb]
        have e3 : (((i * T + j) * 4 + c) / (1 * 1 * (1 * 4)) % (B * T) * 1 +
            ((i * T + j) * 4 + c) / (1 * 4) % (1 * 1) % 1) * 1 +
            ((i * T + j) * 4 + c) % (1 * 4) % 1 = i * T + j := by
          have e1 : ((i * T + j) * 4 + c) / (1 * 1 * (1 * 4)) = i * T + j := by omega
          rw [e1, Nat.mod_eq_of_lt hG]
          simp [Nat.mod_one]
        rw [e3]
        rw [getD_map_range _ _ _ _ hG]
        have e1 : ((i * T + j) * 4 + c) / (1 * 1 * (1 * 4)) = i * T + j := by omega
        have e2 : ((i * T + j) * 4 + c) % (1 * 4) = c := by omega
        rw [e1, e2]

/-- Probability input for the C2 example `[2,5,10]`: the maximum at cell
`(0,3)` sits at candidate index 7 (flat index `(0*5+3)*10+7 = 37`). -/
def c2Prob : Tensor ℚ :=
  ⟨[2, 5, 10], (List.range 100).map (fun f => if f = 37 then 1 else 0)⟩

/-- Box input for the C2 example `[2,5,10,4]`: entry value = flat index,
so the box of candidate 7 at cell `(0,3)` is `[148, 149, 150, 151]`. -/
def c2Bbox : Tensor ℚ :=
  ⟨[2, 5, 10, 4], (List.range 400).map (fun f => (f : ℚ))⟩

/-- The output of `get_bbox_top` on the C2 example. -/
def c2Out : Tensor ℚ × Tensor ℚ :=
  match get_bbox_top c2Prob c2Bbox with
  | .ok pair => pair
  | .error _ => (⟨[], []⟩, ⟨[], []⟩)

/-- Witness for C2 at the spec's `[2,5,10]` example: the call succeeds,
and the returned box at `(0,3)` is the input box at `(0,3,7)`. -/
theorem c2_get_bbox_top_argmax_witness :
    c2Prob.shape = [2, 5, 10] ∧ c2Bbox.shape = [2, 5, 10, 4] ∧
    get_bbox_top c2Prob c2Bbox = .ok (c2Out.1, c2Out.2) ∧
    c2Out.1.data.getD 3 0 = 1 ∧
    c2Out.2.data.getD (3 * 4) 0 = 148 ∧
    c2Out.2.data.getD (3 * 4 + 1) 0 = 149 ∧
    c2Out.2.data.getD (3 * 4 + 2) 0 = 150 ∧
    c2Out.2.data.getD (3 * 4 + 3) 0 = 151 ∧
    (c2Out.1.shape = [2, 5] ∧ c2Out.2.shape = [2, 5, 4] ∧
    ∀ i j, i < 2 → j < 5 →
      ∃ k0, k0 < 10 ∧
        (∀ k, k < 10 →
          c2Prob.data.getD ((i * 5 + j) * 10 + k) 0 ≤
            c2Prob.data.getD ((i * 5 + j) * 10 + k0) 0) ∧
        (∀ k, k < k0 →
          c2Prob.data.getD ((i * 5 + j) * 10 + k) 0 <
            c2Prob.data.getD ((i * 5 + j) * 10 + k0) 0) ∧
        c2Out.1.data.getD (i * 5 + j) 0 =
          c2Prob.data.getD ((i * 5 + j) * 10 + k0) 0 ∧
        (∀ c, c < 4 →
          c2Out.2.data.getD ((i * 5 + j) * 4 + c) 0 =
            c2Bbox.data.getD (((i * 5 + j) * 10 + k0) * 4 + c) 0)) :=
  ⟨rfl, rfl, by rfl, by rfl, by rfl, by rfl, by rfl, by rfl,
    c2_get_bbox_top_argmax 2 5 10 c2Prob c2Bbox c2Out.1 c2Out.2 rfl rfl (by rfl)⟩

/-! ## `val_performance` from `VQ/func/train_head.py` (C1, C8)

Inputs are the flattened (`reshape(-1)`) per-timestep lists: refined
probability logits, ground-truth occurrence labels (`clip_with_bbox`) and
the `before_query` validity mask. `torch.sigmoid` and the elementwise
`BCEWithLogitsLoss` are transcendental; they are taken as parameters
`sig` and `bce` — every property proved below is uniform in them, because
the claims concern which timesteps flow into which reduction, not the
numeric values. The mean of an empty tensor is NaN, modelled as
`Option.none`. -/

/-- Boolean-mask indexing `x[mask.bool()]` of two equal-length flattened
tensors (`.bool()` is the nonzero test). -/
def maskSelect : List ℚ → List ℚ → List ℚ
  | x :: xs, m :: ms =>
    if m ≠ 0 then x :: maskSelect xs ms else maskSelect xs ms
  | _, _ => []

/-- Python float-to-long truncation toward zero (exact on the 0.0/1.0
labels this code path feeds it). -/
def pyLong (q : ℚ) : Int := q.num / (q.den : Int)

/-- `weight[index_tensor]` advanced indexing: torch raises on an
out-of-range index (the labels used here are 0/1). -/
def indexSelect (w : List ℚ) : List Int → Except String (List ℚ)
  | [] => .ok []
  | i :: rest =>
    if 0 ≤ i ∧ i.toNat < w.length then
      match indexSelect w rest with
      | .ok l => .ok (w.getD i.toNat 0 :: l)
      | .error e => .error e
    else .error "IndexError: index out of range"

/-- `.mean()` of a flattened tensor: NaN (`none`) on an empty tensor. -/
def meanQ : List ℚ → Option ℚ
  | [] => Option.none
  | a :: l => some ((a :: l).sum / ((a :: l).length : ℚ))

/-- One thresholded accuracy of `val_performance`:
`((sigmoid(pred) > θ) == gt.bool()).float().mean()`, over ALL timesteps. -/
def probAccuracy (sig : ℚ → ℚ) (θ : ℚ) (pred_prob gt_prob : List ℚ) : Option ℚ :=
  meanQ (List.zipWith
    (fun x y => if (decide (sig x > θ) == decide (y ≠ 0)) then (1 : ℚ) else 0)
    pred_prob gt_prob)

/-- `val_performance(config, pred_prob, gts, prob_theta=0.5)` from
`VQ/func/train_head.py`: the masked weighted binary cross-entropy
(`weight[gt[mask].long()]`, elementwise `bce`, then `.mean()`), and four
thresholded accuracies computed over all timesteps. Returns the metric
dict with the source's keys. -/
def val_performance (sig : ℚ → ℚ) (bce : ℚ → ℚ → ℚ) (prob_bce_weight : List ℚ)
    (pred_prob gt_prob gt_before_query : List ℚ) (prob_theta : ℚ) :
    Except String (List (String × Option ℚ)) :=
  match indexSelect prob_bce_weight
      ((maskSelect gt_prob gt_before_query).map pyLong) with
  | .error e => .error e
  | .ok weight_ =>
    .ok [("loss_prob", meanQ (List.zipWith (fun l w => l * w)
            (List.zipWith bce (maskSelect pred_prob gt_before_query)
              (maskSelect gt_prob gt_before_query)) weight_)),
         ("prob_accuracy", probAccuracy sig prob_theta pred_prob gt_prob),
         ("prob_accuracy_0.6", probAccuracy sig (6/10) pred_prob gt_prob),
         ("prob_accuracy_0.7", probAccuracy sig (7/10) pred_prob gt_prob),
         ("prob_accuracy_0.65", probAccuracy sig (65/100) pred_prob gt_prob)]

/-- Concrete stand-ins for the two transcendental functions, used only to
state closed counterexamples/witnesses; the violation shown below holds
for every `sig` and `bce` because the two runs differ only in a
ground-truth label at a mask-false timestep. -/
def c1Sig : ℚ → ℚ := fun x => x

/-- See `c1Sig`. -/
def c1Bce : ℚ → ℚ → ℚ := fun x y => (x - y) * (x - y)

theorem maskSelect_of_all_zero (xs mask : List ℚ) (h : ∀ x ∈ mask, x = 0) :
    maskSelect xs mask = [] := by
  induction mask generalizing xs with
  | nil => cases xs <;> rfl
  | cons a ms ih =>
    cases xs with
    | nil => rfl
    | cons x xs2 =>
      rw [maskSelect, if_neg (by simpa using h a (by simp))]
      exact ih xs2 (fun y hy => h y (by simp [hy]))

theorem maskSelect_mem (xs mask : List ℚ) (y : ℚ)
    (h : y ∈ maskSelect xs mask) : y ∈ xs := by
  induction xs generalizing mask with
  | nil => cases mask <;> simp [maskSelect] at h
  | cons x xs2 ih =>
    cases mask with
    | nil => simp [maskSelect] at h
    | cons a ms =>
      rw [maskSelect] at h
      by_cases ha : a ≠ 0
      · rw [if_pos ha] at h
        rcases List.mem_cons.mp h with h1 | h2
        · simp [h1]
        · simp [ih ms h2]
      · rw [if_neg ha] at h
        simp [ih ms h]

theorem maskSelect_ne_nil (xs mask : List ℚ) (hlen : xs.length = mask.length)
    (x : ℚ) (hx : x ∈ mask) (hxne : x ≠ 0) : maskSelect xs mask ≠ [] := by
  induction mask generalizing xs with
  | nil => simp at hx
  | cons a ms ih =>
    cases xs with
    | nil => simp at hlen
    | cons y ys =>
      rw [maskSelect]
      by_cases ha : a ≠ 0
      · rw [if_pos ha]
        simp
      · rw [if_neg ha]
        push_neg at ha
        rcases List.mem_cons.mp hx with h1 | h2
        · exact absurd (h1.trans ha) hxne
        · exact ih ys (by simpa using hlen) h2

theorem maskSelect_length (xs ys mask : List ℚ) (h : xs.length = ys.length) :
    (maskSelect xs mask).length = (maskSelect ys mask).length := by
  induction mask generalizing xs ys with
  | nil => cases xs <;> cases ys <;> simp [maskSelect]
  | cons a ms ih =>
    cases xs with
    | nil =>
      cases ys with
      | nil => simp [maskSelect]
      | cons y ys2 => simp at h
    | cons x xs2 =>
      cases ys with
      | nil => simp at h
      | cons y ys2 =>
        rw [maskSelect, maskSelect]
        by_cases ha : a ≠ 0
        · rw [if_pos ha, if_pos ha]
          simpa using ih xs2 ys2 (by simpa using h)
        · rw [if_neg ha, if_neg ha]
          exact ih xs2 ys2 (by simpa using h)

theorem indexSelect_ok (w : List ℚ) (ix : List Int)
    (h : ∀ i ∈ ix, 0 ≤ i ∧ i.toNat < w.length) :
    ∃ l, indexSelect w ix = .ok l ∧ l.length = ix.length := by
  induction ix with
  | nil => exact ⟨[], rfl, rfl⟩
  | cons i rest ih =>
    obtain ⟨l, hl, hlen⟩ := ih (fun j hj => h j (by simp [hj]))
    refine ⟨w.getD i.toNat 0 :: l, ?_, by simp [hlen]⟩
    rw [indexSelect, if_pos (h i (by simp)), hl]

theorem meanQ_of_ne_nil (l : List ℚ) (h : l ≠ []) : ∃ q, meanQ l = some q := by
  cases l with
  | nil => simp at h
  | cons a r => exact ⟨_, rfl⟩

deriving instance DecidableEq for Except

/-- C1 counterexample: two batches with identical predictions, identical
masks, and ground truths that agree on every mask-true timestep (the
masked selections coincide), whose metric dicts nevertheless differ —
the thresholded accuracies read the mask-false timestep. With
`pred = [1,1]`, `mask = [1,0]`, `gt = [1,0]` versus `gt = [1,1]`,
`prob_accuracy` is 1/2 in the first run and 1 in the second. -/
theorem c1_val_performance_counterexample :
    maskSelect [1, 1] [1, 0] = maskSelect [1, 1] [1, 0] ∧
    maskSelect [1, 0] [1, 0] = maskSelect [1, 1] [1, 0] ∧
    val_performance c1Sig c1Bce [1, 1] [1, 1] [1, 0] [1, 0] (1 / 2) ≠
      val_performance c1Sig c1Bce [1, 1] [1, 1] [1, 1] [1, 0] (1 / 2) :=
  ⟨rfl, by decide, by
    have h1 : val_performance c1Sig c1Bce [1, 1] [1, 1] [1, 0] [1, 0] (1 / 2) =
        .ok [("loss_prob", some 0), ("prob_accuracy", some (1/2)),
             ("prob_accuracy_0.6", some (1/2)), ("prob_accuracy_0.7", some (1/2)),
             ("prob_accuracy_0.65", some (1/2))] := by
      norm_num [val_performance, meanQ, probAccuracy, maskSelect, indexSelect,
        pyLong, c1Sig, c1Bce]
    have h2 : val_performance c1Sig c1Bce [1, 1] [1, 1] [1, 1] [1, 0] (1 / 2) =
        .ok [("loss_prob", some 0), ("prob_accuracy", some 1),
             ("prob_accuracy_0.6", some 1), ("prob_accuracy_0.7", some 1),
             ("prob_accuracy_0.65", some 1)] := by
      norm_num [val_performance, meanQ, probAccuracy, maskSelect, indexSelect,
        pyLong, c1Sig, c1Bce]
    rw [h1, h2]
    intro hc
    rw [Except.ok.injEq] at hc
    simp at hc⟩

/-- Extract the `loss_prob` entry of a `val_performance` result, keeping
the error behavior. -/
def lossProbOf (r : Except String (List (String × Option ℚ))) :
    Except String (Option (Option ℚ)) :=
  Except.map (fun m => List.lookup "loss_prob" m) r

/-- C1 (amended): the mask-restriction holds for the `loss_prob` metric —
two batches whose mask-selected predictions and ground truths coincide get
the same `loss_prob` entry (including the error behavior of the weight
indexing) — while each thresholded accuracy is a function of the full
prediction and ground-truth lists alone, ignoring the mask entirely
(hence the counterexample: a mask-false timestep does affect them). -/
theorem c1_mask_restriction (sig : ℚ → ℚ) (bce : ℚ → ℚ → ℚ)
    (w pred1 gt1 mask1 pred2 gt2 mask2 : List ℚ) (θ : ℚ)
    (hp : maskSelect pred1 mask1 = maskSelect pred2 mask2)
    (hg : maskSelect gt1 mask1 = maskSelect gt2 mask2) :
    lossProbOf (val_performance sig bce w pred1 gt1 mask1 θ) =
      lossProbOf (val_performance sig bce w pred2 gt2 mask2 θ) ∧
    (∀ m, val_performance sig bce w pred1 gt1 mask1 θ = .ok m →
      List.lookup "prob_accuracy" m = some (probAccuracy sig θ pred1 gt1) ∧
      List.lookup "prob_accuracy_0.6" m = some (probAccuracy sig (6/10) pred1 gt1) ∧
      List.lookup "prob_accuracy_0.7" m = some (probAccuracy sig (7/10) pred1 gt1) ∧
      List.lookup "prob_accuracy_0.65" m = some (probAccuracy sig (65/100) pred1 gt1)) := by
  constructor
  · unfold val_performance
    rw [hp, hg]
    cases hsel : indexSelect w ((maskSelect gt2 mask2).map pyLong) with
    | error e => rfl
    | ok weight_ => rfl
  · intro m hm
    unfold val_performance at hm
    cases hsel : indexSelect w ((maskSelect gt1 mask1).map pyLong) with
    | error e => rw [hsel] at hm; simp at hm
    | ok weight_ =>
      rw [hsel] at hm
      rw [Except.ok.injEq] at hm
      subst hm
      refine ⟨?_, ?_, ?_, ?_⟩ <;> simp [List.lookup]

/-- C1 witness: two concrete batches differing at the mask-false timestep
(predictions 2 vs 3, labels 5 vs 7) with equal masked selections. -/
theorem c1_mask_restriction_witness :
    maskSelect [(1:ℚ), 2] [1, 0] = maskSelect [1, 3] [1, 0] ∧
    maskSelect [(0:ℚ), 5] [1, 0] = maskSelect [0, 7] [1, 0] ∧
    (lossProbOf (val_performance c1Sig c1Bce [1, 1] [1, 2] [0, 5] [1, 0] (1/2)) =
      lossProbOf (val_performance c1Sig c1Bce [1, 1] [1, 3] [0, 7] [1, 0] (1/2)) ∧
    (∀ m, val_performance c1Sig c1Bce [1, 1] [1, 2] [0, 5] [1, 0] (1/2) = .ok m →
      List.lookup "prob_accuracy" m = some (probAccuracy c1Sig (1/2) [1, 2] [0, 5]) ∧
      List.lookup "prob_accuracy_0.6" m = some (probAccuracy c1Sig (6/10) [1, 2] [0, 5]) ∧
      List.lookup "prob_accuracy_0.7" m = some (probAccuracy c1Sig (7/10) [1, 2] [0, 5]) ∧
      List.lookup "prob_accuracy_0.65" m = some (probAccuracy c1Sig (65/100) [1, 2] [0, 5]))) :=
  ⟨rfl, rfl,
    c1_mask_restriction c1Sig c1Bce [1, 1] [1, 2] [0, 5] [1, 0] [1, 3] [0, 7] [1, 0]
      (1/2) rfl rfl⟩

/-- C8: with an all-false (`all zero`) `before_query` mask, `val_performance`
still returns, but the masked BCE reduces a mean over an empty selection and
the `loss_prob` entry is NaN (`none`); with at least one mask-true timestep
(and the source's well-formedness: lists of matching length, 0/1 labels, a
weight table of length ≥ 2), the reduction is a well-defined rational. -/
theorem c8_empty_mask (sig : ℚ → ℚ) (bce : ℚ → ℚ → ℚ)
    (w pred gt mask : List ℚ) (θ x : ℚ) :
    ((∀ y ∈ mask, y = 0) →
      ∃ m, val_performance sig bce w pred gt mask θ = .ok m ∧
        List.lookup "loss_prob" m = some Option.none) ∧
    (pred.length = mask.length → gt.length = mask.length →
      x ∈ mask → x ≠ 0 → (∀ y ∈ gt, y = 0 ∨ y = 1) → 2 ≤ w.length →
      ∃ m q, val_performance sig bce w pred gt mask θ = .ok m ∧
        List.lookup "loss_prob" m = some (some q)) := by
  constructor
  · intro h0
    have hg0 : maskSelect gt mask = [] := maskSelect_of_all_zero gt mask h0
    have hp0 : maskSelect pred mask = [] := maskSelect_of_all_zero pred mask h0
    refine ⟨[("loss_prob", Option.none),
        ("prob_accuracy", probAccuracy sig θ pred gt),
        ("prob_accuracy_0.6", probAccuracy sig (6/10) pred gt),
        ("prob_accuracy_0.7", probAccuracy sig (7/10) pred gt),
        ("prob_accuracy_0.65", probAccuracy sig (65/100) pred gt)], ?_, ?_⟩
    · unfold val_performance
      rw [hg0, hp0]
      rfl
    · simp [List.lookup]
  · intro hlp hlg hx hxne hgt hw2
    have hgne : maskSelect gt mask ≠ [] := maskSelect_ne_nil gt mask hlg x hx hxne
    have hix : ∀ i ∈ (maskSelect gt mask).map pyLong, 0 ≤ i ∧ i.toNat < w.length := by
      intro i hi
      obtain ⟨y, hy, rfl⟩ := List.mem_map.mp hi
      rcases hgt y (maskSelect_mem gt mask y hy) with h0 | h1
      · subst h0
        have hz : pyLong 0 = 0 := by norm_num [pyLong]
        rw [hz]
        refine ⟨le_refl 0, ?_⟩
        simp only [Int.toNat_zero]
        omega
      · subst h1
        have ho : pyLong 1 = 1 := by norm_num [pyLong]
        rw [ho]
        refine ⟨by norm_num, ?_⟩
        simp only [Int.toNat_one]
        omega
    obtain ⟨weight_, hsel, hwlen⟩ := indexSelect_ok w _ hix
    have hlen2 : (maskSelect pred mask).length = (maskSelect gt mask).length :=
      maskSelect_length pred gt mask (hlp.trans hlg.symm)
    have hLlen : (List.zipWith (fun l wt => l * wt)
        (List.zipWith bce (maskSelect pred mask) (maskSelect gt mask))
        weight_).length = (maskSelect gt mask).length := by
      rw [List.length_zipWith, List.length_zipWith, hlen2, hwlen, List.length_map]
      simp
    have hLne : List.zipWith (fun l wt => l * wt)
        (List.zipWith bce (maskSelect pred mask) (maskSelect gt mask))
        weight_ ≠ [] := by
      intro hnil
      apply hgne
      rw [hnil] at hLlen
      exact (List.length_eq_zero.mp hLlen.symm)
    obtain ⟨q, hq⟩ := meanQ_of_ne_nil _ hLne
    refine ⟨[("loss_prob", meanQ (List.zipWith (fun l wt => l * wt)
        (List.zipWith bce (maskSelect pred mask) (maskSelect gt mask)) weight_)),
        ("prob_accuracy", probAccuracy sig θ pred gt),
        ("prob_accuracy_0.6", probAccuracy sig (6/10) pred gt),
        ("prob_accuracy_0.7", probAccuracy sig (7/10) pred gt),
        ("prob_accuracy_0.65", probAccuracy sig (65/100) pred gt)], q, ?_, ?_⟩
    · unfold val_performance
      rw [hsel]
    · simp [List.lookup, hq]

/-- C8 witness: the all-false mask `[0,0]` yields a NaN `loss_prob`; the
mask `[1,0]` (one valid timestep) yields a well-defined rational. -/
theorem c8_empty_mask_witness :
    (∃ m, val_performance c1Sig c1Bce [1, 2] [1, 1] [0, 1] [0, 0] (1/2) = .ok m ∧
      List.lookup "loss_prob" m = some Option.none) ∧
    (∃ m q, val_performance c1Sig c1Bce [1, 2] [1, 1] [0, 1] [1, 0] (1/2) = .ok m ∧
      List.lookup "loss_prob" m = some (some q)) :=
  ⟨(c8_empty_mask c1Sig c1Bce [1, 2] [1, 1] [0, 1] [0, 0] (1/2) 1).1 (by decide),
   (c8_empty_mask c1Sig c1Bce [1, 2] [1, 1] [0, 1] [1, 0] (1/2) 1).2 rfl rfl
     (by decide) (by decide) (by decide) (by decide)⟩

/-! ## `train_epoch` gradient accumulation from `VQ/func/train_head.py` (C7)

The per-batch tail of the training loop (lines 54-68) is embedded as an
event trace: `total_loss = total_loss / accumulation_step` then
`total_loss.backward()` on every batch, and — exactly when
`(batch_idx+1) % accumulation_step == 0` — gradient clipping,
`optimizer.step()`, `optimizer.zero_grad()` and `schedular.step()`,
in that order. -/

/-- One optimizer-relevant action of the loop body. -/
inductive TrainEv where
  | backward (loss : ℚ)
  | clipGrad
  | optimStep
  | zeroGrad
  | schedStep
deriving DecidableEq

/-- The four actions guarded by `if (batch_idx+1) % accumulation_step == 0`. -/
def stepTail : List TrainEv :=
  [TrainEv.clipGrad, TrainEv.optimStep, TrainEv.zeroGrad, TrainEv.schedStep]

/-- The events of batch `batch_idx` (0-based) with summed loss `total_loss`:
the loss is divided by `accumulation_step` before `backward`. -/
def batchEvents (accumulation_step batch_idx : Nat) (total_loss : ℚ) : List TrainEv :=
  TrainEv.backward (total_loss / (accumulation_step : ℚ)) ::
    (if (batch_idx + 1) % accumulation_step = 0 then stepTail else [])

/-- The whole epoch over `losses` (the summed per-batch losses, in batch
order): the event lists of batches `0, 1, ...`. -/
def train_epoch_events (accumulation_step : Nat) (losses : List ℚ) : List (List TrainEv) :=
  (List.range losses.length).map
    (fun i => batchEvents accumulation_step i (losses.getD i 0))

theorem count_stepTail (e : TrainEv) (he : e ∈ stepTail) (l : ℚ) (i N : Nat) :
    (batchEvents N i l).count e = if (i + 1) % N = 0 then 1 else 0 := by
  by_cases h : (i + 1) % N = 0 <;>
    simp [stepTail] at he <;>
    rcases he with rfl | rfl | rfl | rfl <;>
    simp [batchEvents, stepTail, h, List.count_cons]

theorem sum_range_mod (N : Nat) (n : Nat) :
    ((List.range n).map (fun i => if (i + 1) % N = 0 then 1 else 0)).sum = n / N := by
  induction n with
  | zero => simp
  | succ k ih =>
    rw [List.range_succ, List.map_append, List.sum_append, ih, Nat.succ_div]
    simp only [List.map_cons, List.map_nil, List.sum_cons, List.sum_nil]
    by_cases h : (k + 1) % N = 0
    · rw [if_pos h, if_pos (Nat.dvd_of_mod_eq_zero h)]
      omega
    · rw [if_neg h, if_neg (fun hd => h (Nat.mod_eq_zero_of_dvd hd))]
      omega

theorem count_join_eq {α : Type} [BEq α] (l : List (List α)) (a : α) :
    l.flatten.count a = (l.map (fun s => s.count a)).sum := by
  induction l with
  | nil => rfl
  | cons s t ih => rw [List.flatten_cons, List.count_append, ih]; rfl

/-- C7: with `accumulation_step = N > 0`, every batch first backpropagates
its loss divided by `N`, and the clip/step/zero-grad/scheduler tail runs
exactly on batches whose 1-based index is a multiple of `N`; consequently
each of the four step actions occurs exactly `⌊batches/N⌋` times in the
epoch — once per `N` batches, never otherwise. -/
theorem c7_grad_accumulation (N : Nat) (losses : List ℚ) (hN : 0 < N) :
    (∀ i, i < losses.length →
      (train_epoch_events N losses).getD i [] =
        TrainEv.backward (losses.getD i 0 / (N : ℚ)) ::
          (if (i + 1) % N = 0 then
            [TrainEv.clipGrad, TrainEv.optimStep, TrainEv.zeroGrad, TrainEv.schedStep]
          else [])) ∧
    (∀ e, e ∈ stepTail →
      (train_epoch_events N losses).flatten.count e = losses.length / N) := by
  constructor
  · intro i hi
    unfold train_epoch_events
    rw [getD_map_range _ _ _ _ hi]
    rfl
  · intro e he
    rw [count_join_eq]
    unfold train_epoch_events
    rw [List.map_map]
    have hcongr : ((fun s => List.count e s) ∘
        fun i => batchEvents N i (losses.getD i 0)) =
        fun i => if (i + 1) % N = 0 then 1 else 0 := by
      funext i
      exact count_stepTail e he (losses.getD i 0) i N
    rw [hcongr, sum_range_mod N]

/-- C7 witness: `accumulation_step = 2` over five batches — the step tail
runs on batches 1 and 3 (0-based) only, and each step action occurs
`5 / 2 = 2` times. -/
theorem c7_grad_accumulation_witness :
    (∀ i, i < ([10, 20, 30, 40, 50] : List ℚ).length →
      (train_epoch_events 2 [10, 20, 30, 40, 50]).getD i [] =
        TrainEv.backward (([10, 20, 30, 40, 50] : List ℚ).getD i 0 / (2 : ℚ)) ::
          (if (i + 1) % 2 = 0 then
            [TrainEv.clipGrad, TrainEv.optimStep, TrainEv.zeroGrad, TrainEv.schedStep]
          else [])) ∧
    (∀ e, e ∈ stepTail →
      (train_epoch_events 2 [10, 20, 30, 40, 50]).flatten.count e =
        ([10, 20, 30, 40, 50] : List ℚ).length / 2) :=
  c7_grad_accumulation 2 [10, 20, 30, 40, 50] (by decide)

/-! ## `validate` metric aggregation from `VQ/func/train_head.py` (C9)

Lines 136-147: each batch's `results` dict is folded into the running
`metrics` dict; `metrics[k].append(v)` — the only operation there that can
raise (e.g. when a value is not a list) — is modelled by an abstract
fallible `app`; its failure is caught by the inner `except` which prints
`'1', k, v, ...`; the whole loop sits in an outer `try` whose `except`
prints the metrics. -/

/-- Python dict assignment to an existing key (in-place value update,
insertion order kept). -/
def setLQ (l : List (String × List ℚ)) (k : String) (v : List ℚ) :
    List (String × List ℚ) :=
  match l with
  | [] => []
  | (k0, v0) :: rest =>
    if k0 = k then (k0, v) :: rest else (k0, v0) :: setLQ rest k v

/-- The body of the outer `try` (the `for k, v in results.items()` loop),
inner `try/except` translated: an `app` failure is caught on the spot and
logged, everything else proceeds; the returned `Except` carries any
uncaught exception. Returns the updated metrics and the printed lines. -/
def aggregate_metrics (app : List ℚ → ℚ → Except String (List ℚ))
    (metrics : List (String × List ℚ)) :
    List (String × ℚ) → Except String (List (String × List ℚ) × List String)
  | [] => .ok (metrics, [])
  | (k, v) :: rest =>
    match List.lookup k metrics with
    | some old =>
      match app old v with
      | .ok l => aggregate_metrics app (setLQ metrics k l) rest
      | .error _ =>
        match aggregate_metrics app metrics rest with
        | .ok (m, logs) => .ok (m, ("1 " ++ k) :: logs)
        | .error e => .error e
    | none => aggregate_metrics app (metrics ++ [(k, [v])]) rest

/-- The outer `try/except`: a propagating exception is caught, the metrics
dict is printed, and validation continues with `metrics` as they were. -/
def validate_agg (app : List ℚ → ℚ → Except String (List ℚ))
    (metrics : List (String × List ℚ)) (results : List (String × ℚ)) :
    List (String × List ℚ) × List String :=
  match aggregate_metrics app metrics results with
  | .ok r => r
  | .error _ => (metrics, ["outer"])

theorem lookup_setLQ_other (l : List (String × List ℚ)) (k k0 : String)
    (v : List ℚ) (h : k0 ≠ k) :
    List.lookup k0 (setLQ l k v) = List.lookup k0 l := by
  induction l with
  | nil => rfl
  | cons p rest ih =>
    obtain ⟨k1, v1⟩ := p
    rw [setLQ]
    by_cases h1 : k1 = k
    · rw [if_pos h1]
      have hb : (k0 == k1) = false := beq_eq_false_iff_ne.mpr (h1 ▸ h)
      simp [List.lookup, hb]
    · rw [if_neg h1]
      cases hb : k0 == k1 <;> simp [List.lookup, hb, ih]

theorem lookup_append_none {α : Type} (l l2 : List (String × α)) (k : String)
    (h : List.lookup k l = Option.none) :
    List.lookup k (l ++ l2) = List.lookup k l2 := by
  induction l with
  | nil => rfl
  | cons p rest ih =>
    obtain ⟨k1, v1⟩ := p
    rw [List.lookup] at h
    rw [List.cons_append, List.lookup]
    cases hb : k == k1
    · rw [hb] at h
      exact ih h
    · rw [hb] at h
      exact absurd h (by simp)

theorem validate_agg_of_ok (app : List ℚ → ℚ → Except String (List ℚ))
    (metrics : List (String × List ℚ)) (results : List (String × ℚ))
    (r : List (String × List ℚ) × List String)
    (h : aggregate_metrics app metrics results = .ok r) :
    validate_agg app metrics results = r := by
  unfold validate_agg
  rw [h]

/-- C9: the metric-aggregation step of `validate` never aborts — for every
behavior of the fallible `append` and every running-metrics state, the
loop body returns normally (the outer `except` is dead code for this body:
the inner `except` already catches the only raising operation, logging
`'1', k, ...`), no log line is printed when every append succeeds, and
keys touched by neither `metrics` nor `results` stay absent. -/
theorem c9_validate_aggregation (app : List ℚ → ℚ → Except String (List ℚ))
    (metrics : List (String × List ℚ)) (results : List (String × ℚ)) :
    ∃ m logs, aggregate_metrics app metrics results = .ok (m, logs) ∧
      validate_agg app metrics results = (m, logs) ∧
      ((∀ old v, ∃ l, app old v = .ok l) → logs = []) ∧
      (∀ k, List.lookup k metrics = Option.none →
        (∀ v, (k, v) ∉ results) → List.lookup k m = Option.none) := by
  induction results generalizing metrics with
  | nil => exact ⟨metrics, [], rfl, rfl, fun _ => rfl, fun k hk _ => hk⟩
  | cons p rest ih =>
    obtain ⟨k, v⟩ := p
    cases hlk : List.lookup k metrics with
    | some old =>
      cases happ : app old v with
      | ok l =>
        obtain ⟨m, logs, h1, h2, h3, h4⟩ := ih (setLQ metrics k l)
        have hagg : aggregate_metrics app metrics ((k, v) :: rest) =
            .ok (m, logs) := by
          rw [aggregate_metrics, hlk]
          dsimp only
          rw [happ]
          exact h1
        refine ⟨m, logs, hagg, validate_agg_of_ok _ _ _ _ hagg, h3, ?_⟩
        intro k0 hk0 hnot
        have hne : k0 ≠ k := by
          intro hh
          rw [hh, hlk] at hk0
          cases hk0
        refine h4 k0 ?_ (fun v0 hv0 => hnot v0 (List.mem_cons_of_mem _ hv0))
        rw [lookup_setLQ_other _ _ _ _ hne]
        exact hk0
      | error e =>
        obtain ⟨m, logs, h1, h2, h3, h4⟩ := ih metrics
        have hagg : aggregate_metrics app metrics ((k, v) :: rest) =
            .ok (m, ("1 " ++ k) :: logs) := by
          rw [aggregate_metrics, hlk]
          dsimp only
          rw [happ]
          dsimp only
          rw [h1]
        refine ⟨m, ("1 " ++ k) :: logs, hagg, validate_agg_of_ok _ _ _ _ hagg,
          ?_, ?_⟩
        · intro hall
          obtain ⟨l, hl⟩ := hall old v
          rw [happ] at hl
          cases hl
        · intro k0 hk0 hnot
          exact h4 k0 hk0 (fun v0 hv0 => hnot v0 (List.mem_cons_of_mem _ hv0))
    | none =>
      obtain ⟨m, logs, h1, h2, h3, h4⟩ := ih (metrics ++ [(k, [v])])
      have hagg : aggregate_metrics app metrics ((k, v) :: rest) =
          .ok (m, logs) := by
        rw [aggregate_metrics, hlk]
        exact h1
      refine ⟨m, logs, hagg, validate_agg_of_ok _ _ _ _ hagg, h3, ?_⟩
      intro k0 hk0 hnot
      have hne : k0 ≠ k := by
        intro hh
        exact hnot v (by rw [hh]; exact List.mem_cons_self _ _)
      refine h4 k0 ?_ (fun v0 hv0 => hnot v0 (List.mem_cons_of_mem _ hv0))
      rw [lookup_append_none _ _ _ hk0]
      simp [List.lookup, beq_eq_false_iff_ne.mpr hne]
